import Mathlib

/-!
Verification of the car-yard rostering engine (`src/scheduler/rostering_api.py`).

The Python module `solve_roster` works in three phases:

1. a pre-solve validation phase (lines 244-293 and the per-yard checks in
   lines 325-397 plus the linked-yard checks at lines 389-397 and 618-623),
   all of which raise `HTTPException` before `solver.Solve` is invoked;
2. a CP-SAT model whose hard constraints relate the decision variables
   `x[(emp, yard, day)]`, `covered[(yard, day)]` and the integer
   work-minute variables `work_minutes[(emp, yard, day)]`;
3. a post-solve extraction and time-block scheduling pass
   (lines 777-1027).

This file gives a shallow embedding of the three phases:

* `validate` is an executable copy of phase 1, returning the
  `coverage_requirements` and `link_pairs` tables the Python code builds.
* `Feasible` is the conjunction of every hard constraint the model places on
  the `x` / `covered` / `work` values.  The CP-SAT solver is an external
  black box; its contract is that any solution it reports with status
  OPTIMAL or FEASIBLE satisfies all constraints that were added to the
  model, so "solution returned by solve_roster" is embedded as "values
  satisfying `Feasible`".  Auxiliary variables that feed only the objective
  (the `emp_single_yard`, `penalty_amount`, `shared` / `joiner` / `mix`,
  `min_shifts` / `max_shifts` variables) constrain nothing but themselves
  and are not part of the hard-constraint set on `x` / `covered` / `work`;
  they are therefore omitted.
* `runDay` / `yardTimeblocks` / `buildResponse` / `solve_roster` embed
  phase 3.  Python `float` arithmetic on hours and `datetime.time` values
  is embedded as exact rational arithmetic on minutes-since-midnight, with
  `datetime` wrap-around past midnight modelled by `wrap1440`.
-/

/-- Day-of-week enumeration (`DayOfWeek`, lines 12-18 of the source). -/
inductive DayOfWeek where
  | monday
  | tuesday
  | wednesday
  | thursday
  | friday
  | saturday
deriving DecidableEq

/-- Yard priority tiers (`CarYardPriority`, lines 27-30). -/
inductive CarYardPriority where
  | high
  | medium
  | low
deriving DecidableEq

/-- Yard regions (`CarYardRegion`, lines 33-36). -/
inductive CarYardRegion where
  | north
  | central
  | south
deriving DecidableEq

/-- An employee (`Employee`, lines 39-44).  `ranking` carries the numeric
value of the `EmployeeReliabilityRating` enum; it feeds only the objective. -/
structure Employee where
  id : ℤ
  name : String
  ranking : ℕ
  available_days : List DayOfWeek
  not_region : Option CarYardRegion
deriving DecidableEq

/-- A car yard (`CarYard`, lines 47-63).  Optional `time` fields are
minutes since midnight as exact rationals; `hours_required` and the
link/visit tuples mirror the Python fields.  Pydantic enforces
`min_employees ≥ 1`, `max_employees ≥ 1`, `hours_required ≥ 1.0` at parse
time, so those bounds hold for every request that reaches `solve_roster`. -/
structure CarYard where
  id : ℤ
  name : String
  startTime : Option ℚ
  priority : CarYardPriority
  region : CarYardRegion
  required_days : Option (List DayOfWeek)
  linked_yard : Option (ℤ × ℤ)
  per_week : Option (ℤ × ℤ)
  min_employees : ℕ
  max_employees : ℕ
  hours_required : ℚ
deriving DecidableEq

/-- A solve request (`ScheduleRequest`, lines 66-83).  `yard_groups` is the
optional dict of named yard groups, kept in insertion order.  Pydantic
enforces `max_hours_per_day ≥ 3` and `travel_buffer_minutes ≥ 0`. -/
structure ScheduleRequest where
  employees : List Employee
  car_yards : List CarYard
  days : List DayOfWeek
  yard_groups : Option (List (String × List ℤ))
  max_hours_per_day : ℚ
  earliest_start_time : Option ℚ
  travel_buffer_minutes : ℕ
deriving DecidableEq

/-- The distinct validation failures raised before the solver is invoked
(each corresponds to one `HTTPException(status_code=400, ...)` site of the
pre-solve phase). -/
inductive ValidationError where
  | duplicateEmployeeIds
  | duplicateCarYardIds
  | noEmployees
  | noCarYards
  | noDays
  | minAboveMax (cyId : ℤ)
  | invalidGroupIds (groupName : String)
  | tooManyVisits (cyId : ℤ)
  | missingRequiredDays (cyId : ℤ)
  | negativeLinkedGap (cyId : ℤ)
  | linkedYardTooManyVisits (cyId : ℤ)
  | conflictingLinkedGaps (cyId : ℤ)
  | linkedYardMultipleRequiredDays (cyId : ℤ)
deriving DecidableEq

/-- The tables the pre-solve phase computes: `coverage_requirements`
(yard id to `(visits_required, min_gap)`, line 365) and `link_pairs`
(sorted yard-id pair to gap, line 386), both in insertion order. -/
structure ValidCtx where
  coverageReq : List (ℤ × ℤ × ℤ)
  linkPairs : List ((ℤ × ℤ) × ℤ)
deriving DecidableEq

/-- Visit requirement of a yard: the `per_week` pair if declared, else
`(1, 0)` (lines 340-364; a Python tuple is truthy even when it is
`(0, 0)`, so `if cy.per_week:` is exactly `isSome`). -/
def perWeekReq (cy : CarYard) : ℤ × ℤ :=
  match cy.per_week with
  | some vg => vg
  | none => (1, 0)

/-- Coverage-requirements entry recorded for a yard (line 365). -/
def entryOf (cy : CarYard) : ℤ × ℤ × ℤ :=
  (cy.id, perWeekReq cy)

/-- The list of required days, empty when the field is absent. -/
def requiredDaysList (cy : CarYard) : List DayOfWeek :=
  cy.required_days.getD []

/-- Truthiness of `cy.required_days` in Python: present and non-empty. -/
def hasRequiredDays (cy : CarYard) : Bool :=
  !(requiredDaysList cy).isEmpty

/-- Truthiness of `cy.per_week` in Python: any present tuple is truthy. -/
def hasPerWeek (cy : CarYard) : Bool :=
  cy.per_week.isSome

/-- Python `tuple(sorted((a, b)))` on a two-element tuple. -/
def sortedPairKey (a b : ℤ) : ℤ × ℤ :=
  if a ≤ b then (a, b) else (b, a)

/-- Per-yard slice of the pre-solve loop (lines 325-386): `per_week`
validation, the `required_days ⊆ days` check, and the linked-yard checks
(which are all skipped when the linked id is unknown, line 369).  Returns
the extended `coverage_requirements` and `link_pairs` accumulators. -/
def stepYard (days : List DayOfWeek) (yardIds : List ℤ) (cy : CarYard)
    (covAcc : List (ℤ × ℤ × ℤ)) (linkAcc : List ((ℤ × ℤ) × ℤ)) :
    Except ValidationError (List (ℤ × ℤ × ℤ) × List ((ℤ × ℤ) × ℤ)) :=
  if hasPerWeek cy ∧ (days.length : ℤ) < (perWeekReq cy).1 then
    .error (.tooManyVisits cy.id)
  else if hasPerWeek cy ∧ hasRequiredDays cy ∧
      ¬ (∀ d ∈ requiredDaysList cy, d ∈ days) then
    .error (.missingRequiredDays cy.id)
  else
    match cy.linked_yard with
    | none => .ok (covAcc ++ [entryOf cy], linkAcc)
    | some (linkedId, gapDays) =>
      if linkedId ∈ yardIds then
        if gapDays < 0 then
          .error (.negativeLinkedGap cy.id)
        else if (1 : ℤ) < (perWeekReq cy).1 then
          .error (.linkedYardTooManyVisits cy.id)
        else
          match linkAcc.lookup (sortedPairKey cy.id linkedId) with
          | some g0 =>
            if g0 ≠ gapDays then .error (.conflictingLinkedGaps cy.id)
            else .ok (covAcc ++ [entryOf cy], linkAcc)
          | none =>
            .ok (covAcc ++ [entryOf cy],
              linkAcc ++ [(sortedPairKey cy.id linkedId, gapDays)])
      else .ok (covAcc ++ [entryOf cy], linkAcc)

/-- The pre-solve loop over all yards, in list order (lines 325-386). -/
def processYards (days : List DayOfWeek) (yardIds : List ℤ) :
    List CarYard → List (ℤ × ℤ × ℤ) → List ((ℤ × ℤ) × ℤ) →
    Except ValidationError (List (ℤ × ℤ × ℤ) × List ((ℤ × ℤ) × ℤ))
  | [], covAcc, linkAcc => .ok (covAcc, linkAcc)
  | cy :: rest, covAcc, linkAcc =>
    match stepYard days yardIds cy covAcc linkAcc with
    | .error e => .error e
    | .ok (c, l) => processYards days yardIds rest c l

/-- Per-yard `min_employees ≤ max_employees` check (lines 276-281). -/
def checkMinMax : List CarYard → Except ValidationError Unit
  | [] => .ok ()
  | cy :: rest =>
    if cy.max_employees < cy.min_employees then .error (.minAboveMax cy.id)
    else checkMinMax rest

/-- Yard-group reference check (lines 284-293): each listed id must be a
known yard id. -/
def checkGroups (yardIds : List ℤ) :
    List (String × List ℤ) → Except ValidationError Unit
  | [] => .ok ()
  | (gname, ids) :: rest =>
    if ¬ (∀ i ∈ ids, i ∈ yardIds) then .error (.invalidGroupIds gname)
    else checkGroups yardIds rest

/-- True when the `coverage_requirements` table records more than one
required visit for the yard (lines 391-397). -/
def visitsTooMany (cov : List (ℤ × ℤ × ℤ)) (yid : ℤ) : Bool :=
  match cov.lookup yid with
  | some vg => decide ((1 : ℤ) < vg.1)
  | none => false

/-- Post-loop check that neither endpoint of a link pair requires more
than one weekly visit (lines 389-398). -/
def checkLinkedVisits (cov : List (ℤ × ℤ × ℤ)) :
    List ((ℤ × ℤ) × ℤ) → Except ValidationError Unit
  | [] => .ok ()
  | ((s, t), _) :: rest =>
    if visitsTooMany cov s then .error (.linkedYardTooManyVisits s)
    else if visitsTooMany cov t then .error (.linkedYardTooManyVisits t)
    else checkLinkedVisits cov rest

/-- Membership of a yard id in `linked_yard_ids` (line 600). -/
def isLinkedIn (links : List ((ℤ × ℤ) × ℤ)) (yid : ℤ) : Bool :=
  links.any (fun p => p.1.1 = yid ∨ p.1.2 = yid)

/-- Check raised inside the frequency-constraint loop but still before the
solver runs (lines 618-623): a linked yard cannot declare more than one
required day. -/
def checkLinkedRequiredDays (links : List ((ℤ × ℤ) × ℤ)) :
    List CarYard → Except ValidationError Unit
  | [] => .ok ()
  | cy :: rest =>
    if isLinkedIn links cy.id ∧ 1 < (requiredDaysList cy).length then
      .error (.linkedYardMultipleRequiredDays cy.id)
    else checkLinkedRequiredDays links rest

/-- All yard ids of a request, in list order. -/
def yardIdsOf (req : ScheduleRequest) : List ℤ :=
  req.car_yards.map (fun cy => cy.id)

/-- The whole pre-solve validation phase of `solve_roster`, in the order
the Python code performs it: duplicate-id checks (lines 245-255), emptiness
checks (257-273), min/max check (276-281), yard-group check (284-293), the
per-yard loop (325-386), the linked-visit-count loop (389-398) and the
linked-required-days check (618-623).  Every error corresponds to an
`HTTPException` raised before `solver.Solve(model)` at line 773. -/
def validate (req : ScheduleRequest) : Except ValidationError ValidCtx :=
  if (req.employees.map (fun e => e.id)).Nodup then
    if (req.car_yards.map (fun cy => cy.id)).Nodup then
      if req.employees.isEmpty then .error .noEmployees
      else if req.car_yards.isEmpty then .error .noCarYards
      else if req.days.isEmpty then .error .noDays
      else
        match checkMinMax req.car_yards with
        | .error e => .error e
        | .ok _ =>
          match checkGroups (yardIdsOf req) (req.yard_groups.getD []) with
          | .error e => .error e
          | .ok _ =>
            match processYards req.days (yardIdsOf req) req.car_yards [] [] with
            | .error e => .error e
            | .ok (cov, links) =>
              match checkLinkedVisits cov links with
              | .error e => .error e
              | .ok _ =>
                match checkLinkedRequiredDays links req.car_yards with
                | .error e => .error e
                | .ok _ => .ok { coverageReq := cov, linkPairs := links }
    else .error .duplicateCarYardIds
  else .error .duplicateEmployeeIds

/-- Values of the CP-SAT decision variables for one candidate solution:
`x` is `x[(emp_id, cy_id, day)]` (line 307), `covered` is
`covered[(cy_id, day)]` (line 315), `work` is the integer minute count
`work_minutes[(emp_id, cy_id, day)]` (line 529, domain `[0, total_minutes]`,
so it is a natural number). -/
structure Solution where
  x : ℤ → ℤ → DayOfWeek → Bool
  covered : ℤ → DayOfWeek → Bool
  work : ℤ → ℤ → DayOfWeek → ℕ

/-- Python `int()` on a rational: truncation toward zero.  `Rat` is stored
in lowest terms with positive denominator, so this is `num tdiv den`. -/
def pyInt (q : ℚ) : ℤ :=
  q.num.tdiv q.den

/-- Total required minutes of a yard, `int(cy.hours_required * 60)`
(line 525 with `SCALE_FACTOR = MINUTES_PER_HOUR = 60`). -/
def totalMinutes (cy : CarYard) : ℤ :=
  pyInt (cy.hours_required * 60)

/-- Daily cap in minutes, `int(request.max_hours_per_day * 60)` (line 591). -/
def maxMinutes (req : ScheduleRequest) : ℤ :=
  pyInt (req.max_hours_per_day * 60)

/-- Number of employees assigned to a yard on a day,
`sum(x[(emp_id, cy_id, day)] for emp_id in employees)` (line 422). -/
def countAssigned (req : ScheduleRequest) (sol : Solution) (cyId : ℤ)
    (d : DayOfWeek) : ℕ :=
  (req.employees.filter (fun e => sol.x e.id cyId d)).length

/-- The ids of the employees assigned to a yard on a day, in employee-list
order (this is the order `raw_assignments` and `yards_covered` produce at
lines 779-809, since the employee loop is outermost). -/
def assignedEmployees (req : ScheduleRequest) (sol : Solution) (cyId : ℤ)
    (d : DayOfWeek) : List ℤ :=
  ((req.employees.filter (fun e => sol.x e.id cyId d)).map (fun e => e.id))

/-- Total work minutes at a yard on a day, `sum(work_vars)` (line 539). -/
def sumWorkAtYard (req : ScheduleRequest) (sol : Solution) (cyId : ℤ)
    (d : DayOfWeek) : ℕ :=
  ((req.employees.map (fun e => sol.work e.id cyId d)).sum)

/-- Total work minutes of one employee across all yards on a day
(lines 589-590). -/
def employeeDayMinutes (req : ScheduleRequest) (sol : Solution) (empId : ℤ)
    (d : DayOfWeek) : ℕ :=
  ((req.car_yards.map (fun cy => sol.work empId cy.id d)).sum)

/-- Number of covered days of a yard across the horizon,
`sum(coverage_vars)` (line 604, summed over the request's day list). -/
def countCovered (req : ScheduleRequest) (sol : Solution) (cyId : ℤ) : ℕ :=
  (req.days.filter (fun d => sol.covered cyId d)).length

/-- Accumulator pass of `dayIndex`: the Python dict comprehension
`{day: idx for idx, day in enumerate(days)}` keeps the LAST index of each
value, which this fold reproduces. -/
def dayIndexGo (d : DayOfWeek) : List (ℕ × DayOfWeek) → ℕ → ℕ
  | [], acc => acc
  | p :: rest, acc => dayIndexGo d rest (if p.2 = d then p.1 else acc)

/-- The `day_index` mapping of line 318. -/
def dayIndex (days : List DayOfWeek) (d : DayOfWeek) : ℕ :=
  dayIndexGo d days.enum 0

/-- Integer-valued `day_index`, since the Python code subtracts indices. -/
def dayIdxZ (days : List DayOfWeek) (d : DayOfWeek) : ℤ :=
  (dayIndex days d : ℤ)

/-- Truthiness of `emp.not_region and cy.region == emp.not_region`
(line 405). -/
def RegionExcluded (e : Employee) (cy : CarYard) : Prop :=
  e.not_region = some cy.region

instance (e : Employee) (cy : CarYard) : Decidable (RegionExcluded e cy) := by
  unfold RegionExcluded
  infer_instance

/-- Lookup into the `coverage_requirements` dict (every yard id has exactly
one entry after validation; the default is never consulted then). -/
def reqOf (ctx : ValidCtx) (cyId : ℤ) : ℤ × ℤ :=
  (ctx.coverageReq.lookup cyId).getD (1, 0)

/-- Day-restriction constraints of lines 330-336: a yard declaring
`required_days` without `per_week` may not be covered, nor have anyone
assigned, outside its required days. -/
def AllowedDaysOk (req : ScheduleRequest) (sol : Solution) : Prop :=
  ∀ cy ∈ req.car_yards, hasRequiredDays cy = true → hasPerWeek cy = false →
    ∀ d ∈ req.days, d ∉ requiredDaysList cy →
      sol.covered cy.id d = false ∧
      ∀ e ∈ req.employees, sol.x e.id cy.id d = false

/-- Region-exclusion and availability constraints of lines 402-412.  Note
the `else`: when the region is excluded the assignment is forced to zero on
every day, and only otherwise is the availability check applied. -/
def AvailabilityOk (req : ScheduleRequest) (sol : Solution) : Prop :=
  ∀ e ∈ req.employees, ∀ cy ∈ req.car_yards,
    (RegionExcluded e cy → ∀ d ∈ req.days, sol.x e.id cy.id d = false) ∧
    (¬ RegionExcluded e cy →
      ∀ d ∈ req.days, d ∉ e.available_days → sol.x e.id cy.id d = false)

/-- Coverage-count constraints of lines 427-433:
`min_employees * covered ≤ count ≤ max_employees * covered`. -/
def CoverageCountOk (req : ScheduleRequest) (sol : Solution) : Prop :=
  ∀ cy ∈ req.car_yards, ∀ d ∈ req.days,
    cy.min_employees * (sol.covered cy.id d).toNat ≤
      countAssigned req sol cy.id d ∧
    countAssigned req sol cy.id d ≤
      cy.max_employees * (sol.covered cy.id d).toNat

/-- Work-minute constraints of lines 524-543: each work variable is zero
when the employee is unassigned and at most `total_minutes` (its variable
domain); the per-yard sum equals `total_minutes` exactly when the yard is
covered and zero otherwise. -/
def WorkOk (req : ScheduleRequest) (sol : Solution) : Prop :=
  ∀ cy ∈ req.car_yards, ∀ d ∈ req.days,
    (∀ e ∈ req.employees,
      (sol.x e.id cy.id d = false → sol.work e.id cy.id d = 0) ∧
      (sol.work e.id cy.id d : ℤ) ≤ totalMinutes cy) ∧
    (sol.covered cy.id d = true →
      (sumWorkAtYard req sol cy.id d : ℤ) = totalMinutes cy) ∧
    (sol.covered cy.id d = false → sumWorkAtYard req sol cy.id d = 0)

/-- Equal-split constraints of lines 550-579: for every pair of distinct
employees both assigned to a covered yard, their work minutes differ by at
most one.  The Python loop ranges over ordered pairs `i < j` and bounds the
difference by `1` on both sides; quantifying over all ordered pairs with a
one-sided bound is the same constraint set (the `i = j` case is trivial). -/
def FairSplitOk (req : ScheduleRequest) (sol : Solution) : Prop :=
  ∀ cy ∈ req.car_yards, ∀ d ∈ req.days,
    ∀ e1 ∈ req.employees, ∀ e2 ∈ req.employees,
      sol.x e1.id cy.id d = true → sol.x e2.id cy.id d = true →
      (sol.work e1.id cy.id d : ℤ) - (sol.work e2.id cy.id d : ℤ) ≤ 1

/-- Daily-hour-cap constraints of lines 582-592: the per-day work-minute
total of each employee is at most `int(max_hours_per_day * 60)`. -/
def DailyCapOk (req : ScheduleRequest) (sol : Solution) : Prop :=
  ∀ e ∈ req.employees, ∀ d ∈ req.days,
    (employeeDayMinutes req sol e.id d : ℤ) ≤ maxMinutes req

/-- Visit-frequency constraints of lines 602-646: exact coverage for
unlinked yards with explicit frequency requirements, an upper bound for
unlinked yards without them, exactly one covered day for linked yards,
the minimum-gap disjunctions, and the at-least-one-required-day constraint
when both `required_days` and `per_week` are present. -/
def FrequencyOk (req : ScheduleRequest) (ctx : ValidCtx) (sol : Solution) :
    Prop :=
  ∀ cy ∈ req.car_yards,
    (isLinkedIn ctx.linkPairs cy.id = false →
      (hasPerWeek cy = true ∨ hasRequiredDays cy = true) →
      (countCovered req sol cy.id : ℤ) = (reqOf ctx cy.id).1) ∧
    (isLinkedIn ctx.linkPairs cy.id = false → hasPerWeek cy = false →
      hasRequiredDays cy = false →
      (countCovered req sol cy.id : ℤ) ≤ (reqOf ctx cy.id).1) ∧
    (isLinkedIn ctx.linkPairs cy.id = true →
      countCovered req sol cy.id = 1) ∧
    (1 < (reqOf ctx cy.id).1 → 0 < (reqOf ctx cy.id).2 →
      ∀ p1 ∈ req.days.enum, ∀ p2 ∈ req.days.enum, p1.1 < p2.1 →
        dayIdxZ req.days p2.2 - dayIdxZ req.days p1.2 < (reqOf ctx cy.id).2 →
        ¬ (sol.covered cy.id p1.2 = true ∧ sol.covered cy.id p2.2 = true)) ∧
    (hasRequiredDays cy = true → hasPerWeek cy = true →
      (∃ d ∈ req.days, d ∈ requiredDaysList cy) →
      ∃ d ∈ req.days, d ∈ requiredDaysList cy ∧ sol.covered cy.id d = true)

/-- Linked-yard constraints of lines 649-666: coverage equality on every
day when the recorded gap is ≤ 0, and the pairwise gap disjunctions when
it is positive. -/
def LinksOk (req : ScheduleRequest) (ctx : ValidCtx) (sol : Solution) :
    Prop :=
  ∀ pr ∈ ctx.linkPairs,
    (pr.2 ≤ 0 → ∀ d ∈ req.days, sol.covered pr.1.1 d = sol.covered pr.1.2 d) ∧
    (0 < pr.2 → ∀ da ∈ req.days, ∀ db ∈ req.days,
      |dayIdxZ req.days da - dayIdxZ req.days db| < pr.2 →
      ¬ (sol.covered pr.1.1 da = true ∧ sol.covered pr.1.2 db = true))

/-- Conjunction of every hard constraint the CP-SAT model places on the
decision variables.  A solution reported by the solver with status OPTIMAL
or FEASIBLE satisfies this predicate; that is the solver's contract. -/
def Feasible (req : ScheduleRequest) (ctx : ValidCtx) (sol : Solution) :
    Prop :=
  AllowedDaysOk req sol ∧ AvailabilityOk req sol ∧
  CoverageCountOk req sol ∧ WorkOk req sol ∧ FairSplitOk req sol ∧
  DailyCapOk req sol ∧ FrequencyOk req ctx sol ∧ LinksOk req ctx sol

instance (req : ScheduleRequest) (sol : Solution) :
    Decidable (AllowedDaysOk req sol) := by
  unfold AllowedDaysOk
  infer_instance

instance (req : ScheduleRequest) (sol : Solution) :
    Decidable (AvailabilityOk req sol) := by
  unfold AvailabilityOk
  infer_instance

instance (req : ScheduleRequest) (sol : Solution) :
    Decidable (CoverageCountOk req sol) := by
  unfold CoverageCountOk
  infer_instance

instance (req : ScheduleRequest) (sol : Solution) :
    Decidable (WorkOk req sol) := by
  unfold WorkOk
  infer_instance

instance (req : ScheduleRequest) (sol : Solution) :
    Decidable (FairSplitOk req sol) := by
  unfold FairSplitOk
  infer_instance

instance (req : ScheduleRequest) (sol : Solution) :
    Decidable (DailyCapOk req sol) := by
  unfold DailyCapOk
  infer_instance

set_option synthInstance.maxHeartbeats 1000000 in
set_option synthInstance.maxSize 2048 in
instance (req : ScheduleRequest) (ctx : ValidCtx) (sol : Solution) :
    Decidable (FrequencyOk req ctx sol) := by
  unfold FrequencyOk
  infer_instance

instance (req : ScheduleRequest) (ctx : ValidCtx) (sol : Solution) :
    Decidable (LinksOk req ctx sol) := by
  unfold LinksOk
  infer_instance

instance (req : ScheduleRequest) (ctx : ValidCtx) (sol : Solution) :
    Decidable (Feasible req ctx sol) := by
  unfold Feasible
  infer_instance

/-- Wrap-around of `datetime.combine(today, base) + timedelta` back to a
time-of-day value (minutes since midnight in `[0, 1440)`). -/
def wrap1440 (q : ℚ) : ℚ :=
  q - 1440 * ⌊q / 1440⌋

/-- The `add_minutes` helper of lines 820-823: add minutes to a
time-of-day value, wrapping past midnight. -/
def addMinutes (base minutes : ℚ) : ℚ :=
  wrap1440 (base + minutes)

/-- Default earliest start, `request.earliest_start_time or time(6, 0)`
(lines 817-818): `time(hour=6, minute=0)` is 360 minutes since midnight. -/
def defaultStartOf (req : ScheduleRequest) : ℚ :=
  req.earliest_start_time.getD 360

/-- The `priority_rank` dict of lines 828-833.  All three priorities are
listed, so the fallback rank 3 is unreachable and this map is total. -/
def priorityRank : CarYardPriority → ℕ
  | .high => 0
  | .medium => 1
  | .low => 2

/-- One record of the `yard_timeblocks` list (lines 898-907).  Times are
minutes since midnight; `per_employee_hours` is
`hours_required / employee_count` (line 872). -/
structure TimeBlock where
  car_yard_id : ℤ
  day : DayOfWeek
  start_time : ℚ
  finish_time : ℚ
  employees : List ℤ
  per_employee_hours : ℚ
deriving DecidableEq

/-- Sort key of lines 848-856: yard start time (or the global default),
then priority rank, then yard id. -/
def sortKey (defaultStart : ℚ) (item : CarYard × List ℤ) : ℚ × ℕ × ℤ :=
  (item.1.startTime.getD defaultStart, priorityRank item.1.priority,
    item.1.id)

/-- Lexicographic comparison of sort keys. -/
def keyLE (a b : ℚ × ℕ × ℤ) : Bool :=
  decide (a.1 < b.1) ||
    (decide (a.1 = b.1) &&
      (decide (a.2.1 < b.2.1) ||
        (decide (a.2.1 = b.2.1) && decide (a.2.2 ≤ b.2.2))))

/-- Insertion step of an insertion sort on the day's yard list. -/
def insertByKey (defaultStart : ℚ) (a : CarYard × List ℤ) :
    List (CarYard × List ℤ) → List (CarYard × List ℤ)
  | [] => [a]
  | b :: bs =>
    if keyLE (sortKey defaultStart a) (sortKey defaultStart b) then
      a :: b :: bs
    else b :: insertByKey defaultStart a bs

/-- The `sorted(day_yards, key=...)` call of lines 848-856.  Python's sort
is stable, but the key contains the (unique) yard id, so all keys are
distinct and any correct ascending sort produces the same list. -/
def sortYards (defaultStart : ℚ) (l : List (CarYard × List ℤ)) :
    List (CarYard × List ℤ) :=
  l.foldr (insertByKey defaultStart) []

/-- The staffed yards of one day with their assigned employee ids
(`day_assignments[day]`, lines 807-809; order before sorting is
irrelevant because the sort key is total on distinct yard ids). -/
def dayYards (req : ScheduleRequest) (sol : Solution) (d : DayOfWeek) :
    List (CarYard × List ℤ) :=
  ((req.car_yards.filter
      (fun cy => !(assignedEmployees req sol cy.id d).isEmpty)).map
    (fun cy => (cy, assignedEmployees req sol cy.id d)))

/-- Sequential placement loop of lines 859-907: each yard starts at the
later of its earliest-allowed time and every assigned worker's
availability; all its workers finish together after
`hours_required / employee_count` hours; afterwards each of them becomes
available again `travel_buffer_minutes` later.  `avail` is the
`availability` dict with `default_start` as the lookup default. -/
def runDay (req : ScheduleRequest) (defaultStart : ℚ) (d : DayOfWeek) :
    List (CarYard × List ℤ) → (ℤ → ℚ) → List TimeBlock
  | [], _ => []
  | (cy, empIds) :: rest, avail =>
    if empIds.isEmpty then runDay req defaultStart d rest avail
    else
      let earliest := cy.startTime.getD defaultStart
      let proposedStart := (empIds.map avail).foldl max earliest
      let perEmpHours := cy.hours_required / (empIds.length : ℚ)
      let finish := addMinutes proposedStart (perEmpHours * 60)
      let availNext : ℤ → ℚ := fun e =>
        if e ∈ empIds then
          addMinutes finish (req.travel_buffer_minutes : ℚ)
        else avail e
      { car_yard_id := cy.id, day := d, start_time := proposedStart,
        finish_time := finish, employees := empIds,
        per_employee_hours := perEmpHours } ::
        runDay req defaultStart d rest availNext

/-- The full `yard_timeblocks` list (lines 825-907): for each day of the
request, in order, the day's staffed yards are sorted and placed
sequentially, with a fresh availability dict per day. -/
def yardTimeblocks (req : ScheduleRequest) (sol : Solution) :
    List TimeBlock :=
  req.days.flatMap (fun d =>
    runDay req (defaultStartOf req) d
      (sortYards (defaultStartOf req) (dayYards req sol d))
      (fun _ => defaultStartOf req))

/-- The `raw_assignments` list of lines 777-789: all `(emp, yard, day)`
triples whose decision variable is set, employee-major. -/
def rawAssignments (req : ScheduleRequest) (sol : Solution) :
    List (ℤ × ℤ × DayOfWeek) :=
  req.employees.flatMap (fun e =>
    req.car_yards.flatMap (fun cy =>
      (req.days.filter (fun d => sol.x e.id cy.id d)).map
        (fun d => (e.id, cy.id, d))))

/-- The `yard_timing_map` dict build of lines 961-966 (last write wins). -/
def yardTimingMap (blocks : List TimeBlock) (cyId : ℤ) (d : DayOfWeek) :
    Option (ℚ × ℚ) :=
  blocks.foldl
    (fun acc b =>
      if b.car_yard_id = cyId ∧ b.day = d then
        some (b.start_time, b.finish_time)
      else acc)
    none

/-- One output assignment record (`Assignment`, lines 86-93).  The Python
record carries ISO-formatted strings and the empty string when no
timeblock exists for the yard/day pair; here the times stay rational and
the missing case is `none`.  The name fields, being copies of the
employee / yard names, are omitted. -/
structure Assignment where
  employee_id : ℤ
  car_yard_id : ℤ
  day : DayOfWeek
  start_time : Option ℚ
  finish_time : Option ℚ
deriving DecidableEq

/-- The response of `solve_roster` (`ScheduleResponse`, lines 113-117).
Of the `stats` bundle only the timeblock list is retained; the remaining
statistics are arithmetic re-aggregations of `assignments` that no claim
refers to. -/
structure ScheduleResponse where
  status : String
  assignments : List Assignment
  timeblocks : List TimeBlock
deriving DecidableEq

/-- Status reported by the CP-SAT solver (§ "Optimization Engine"). -/
inductive SolverStatus where
  | optimal
  | feasible
  | infeasible
deriving DecidableEq

/-- Errors `solve_roster` raises: a validation error (before the solver
runs), solver infeasibility (line 1029), or the zero-assignment usage
error (line 792). -/
inductive RosterError where
  | validation (e : ValidationError)
  | noFeasibleSolution
  | noAssignments
deriving DecidableEq

/-- The response status string (line 1015). -/
def statusString : SolverStatus → String
  | .optimal => "optimal"
  | _ => "feasible"

/-- Extraction of the successful response (lines 777-1027, restricted to
the fields retained in `ScheduleResponse`). -/
def buildResponse (req : ScheduleRequest) (sol : Solution)
    (st : SolverStatus) : ScheduleResponse :=
  let blocks := yardTimeblocks req sol
  { status := statusString st,
    assignments := (rawAssignments req sol).map (fun t =>
      { employee_id := t.1, car_yard_id := t.2.1, day := t.2.2,
        start_time := (yardTimingMap blocks t.2.1 t.2.2).map Prod.fst,
        finish_time := (yardTimingMap blocks t.2.1 t.2.2).map Prod.snd }),
    timeblocks := blocks }

/-- End-to-end shape of `solve_roster` (lines 224-1032): validation first;
then, given the status the external solver reported and the variable
values it produced, either the infeasibility error, the zero-assignment
usage error, or the extracted response. -/
def solve_roster (req : ScheduleRequest) (status : SolverStatus)
    (sol : Solution) : Except RosterError ScheduleResponse :=
  match validate req with
  | .error e => .error (.validation e)
  | .ok _ =>
    match status with
    | .infeasible => .error .noFeasibleSolution
    | st =>
      if (rawAssignments req sol).isEmpty then .error .noAssignments
      else .ok (buildResponse req sol st)

/-- Remove the `linked_yard` declaration from the yard with the given id
(used to state that an unknown link target is silently ignored). -/
def clearLinkYard (targetId : ℤ) (cy : CarYard) : CarYard :=
  if cy.id = targetId then
    { cy with linked_yard := none }
  else cy

/-- The same request with one yard's `linked_yard` field removed. -/
def clearLink (req : ScheduleRequest) (targetId : ℤ) : ScheduleRequest :=
  { req with car_yards := req.car_yards.map (clearLinkYard targetId) }

/-- True when the yard declares a link to a known yard id with a negative
gap. -/
def knownNegativeGapLink (yardIds : List ℤ) (cy : CarYard) : Bool :=
  match cy.linked_yard with
  | some lg => decide (lg.1 ∈ yardIds) && decide (lg.2 < 0)
  | none => false

/-- True when the two yards declare the same link pair from both
directions with different gaps. -/
def conflictingLinkDecls (cy1 cy2 : CarYard) : Bool :=
  match cy1.linked_yard, cy2.linked_yard with
  | some lg1, some lg2 =>
    decide (lg1.1 = cy2.id) && decide (lg2.1 = cy1.id) &&
      decide (lg1.2 ≠ lg2.2)
  | _, _ => false

/-- True when the yard declares a link to a known yard id while itself
requiring more than one weekly visit. -/
def knownLinkTooManyVisits (yardIds : List ℤ) (cy : CarYard) : Bool :=
  match cy.linked_yard with
  | some lg => decide (lg.1 ∈ yardIds) && decide (1 < (perWeekReq cy).1)
  | none => false

/-- True when the first yard links to the second and the second requires
more than one weekly visit. -/
def linkTargetTooManyVisits (cy1 cy2 : CarYard) : Bool :=
  match cy1.linked_yard with
  | some lg => decide (lg.1 = cy2.id) && decide (1 < (perWeekReq cy2).1)
  | none => false

/-- The malformed-input conditions enumerated by the rejection-determinism
property: duplicate employee ids, duplicate yard ids, an empty employee /
yard / day list, `min_employees > max_employees`, a yard-group reference
to an unknown yard id, a weekly visit count exceeding the horizon, a
negative linked-yard gap (with a known link target; an unknown target is
silently ignored, see the dangling-link theorem), conflicting gaps for a
pair declared from both directions, and a linked yard requiring more than
one weekly visit (on either endpoint of the link). -/
def MalformedC8 (req : ScheduleRequest) : Prop :=
  ¬ (req.employees.map (fun e => e.id)).Nodup ∨
  ¬ (req.car_yards.map (fun cy => cy.id)).Nodup ∨
  req.employees = [] ∨ req.car_yards = [] ∨ req.days = [] ∨
  (∃ cy ∈ req.car_yards, cy.max_employees < cy.min_employees) ∨
  (∃ g ∈ req.yard_groups.getD [], ∃ i ∈ g.2, i ∉ yardIdsOf req) ∨
  (∃ cy ∈ req.car_yards, hasPerWeek cy = true ∧
    (req.days.length : ℤ) < (perWeekReq cy).1) ∨
  (∃ cy ∈ req.car_yards, knownNegativeGapLink (yardIdsOf req) cy = true) ∨
  (∃ cy1 ∈ req.car_yards, ∃ cy2 ∈ req.car_yards,
    conflictingLinkDecls cy1 cy2 = true) ∨
  (∃ cy ∈ req.car_yards, knownLinkTooManyVisits (yardIdsOf req) cy = true) ∨
  (∃ cy1 ∈ req.car_yards, ∃ cy2 ∈ req.car_yards,
    linkTargetTooManyVisits cy1 cy2 = true)

/-- A concrete employee available Monday and Tuesday, no excluded region. -/
def e1A : Employee :=
  { id := 1, name := "Ann", ranking := 10,
    available_days := [.monday, .tuesday], not_region := none }

/-- A concrete plain yard: one worker, one hour, high priority. -/
def y1A : CarYard :=
  { id := 1, name := "YardOne", startTime := none, priority := .high,
    region := .north, required_days := none, linked_yard := none,
    per_week := none, min_employees := 1, max_employees := 1,
    hours_required := 1 }

/-- A second yard linked to the first with gap 0. -/
def y2A : CarYard :=
  { y1A with id := 2, name := "YardTwo", linked_yard := some (1, 0) }

/-- A concrete request: one worker, two yards linked with gap 0, two days. -/
def reqA : ScheduleRequest :=
  { employees := [e1A], car_yards := [y1A, y2A], days := [.monday, .tuesday],
    yard_groups := none, max_hours_per_day := 7,
    earliest_start_time := none, travel_buffer_minutes := 30 }

/-- The tables `validate` produces for `reqA`. -/
def ctxA : ValidCtx :=
  { coverageReq := [(1, 1, 0), (2, 1, 0)], linkPairs := [((1, 2), 0)] }

/-- A feasible solution for `reqA`: the worker cleans both yards Monday. -/
def solA : Solution :=
  { x := fun e cy d =>
      decide (e = 1) && (decide (cy = 1) || decide (cy = 2)) &&
        decide (d = DayOfWeek.monday),
    covered := fun cy d =>
      (decide (cy = 1) || decide (cy = 2)) && decide (d = DayOfWeek.monday),
    work := fun e cy d =>
      if e = 1 ∧ (cy = 1 ∨ cy = 2) ∧ d = DayOfWeek.monday then 60 else 0 }

/-- The all-zero solution (no assignments at all). -/
def solEmptyA : Solution :=
  { x := fun _ _ _ => false, covered := fun _ _ => false,
    work := fun _ _ _ => 0 }

/-- First yard of the travel-buffer scenario: one hour of work. -/
def y1B : CarYard :=
  { id := 1, name := "FirstYard", startTime := none, priority := .high,
    region := .north, required_days := none, linked_yard := none,
    per_week := none, min_employees := 1, max_employees := 1,
    hours_required := 1 }

/-- Second yard of the travel-buffer scenario, also one hour. -/
def y2B : CarYard :=
  { y1B with id := 2, name := "SecondYard" }

/-- The travel-buffer scenario request: two 1-hour yards, one worker, a
45-minute travel buffer, default start 06:00 (no explicit earliest). -/
def reqB : ScheduleRequest :=
  { employees := [e1A], car_yards := [y1B, y2B], days := [.monday],
    yard_groups := none, max_hours_per_day := 7,
    earliest_start_time := none, travel_buffer_minutes := 45 }

/-- A solution for `reqB`: the single worker cleans both yards Monday. -/
def solB : Solution :=
  { x := fun e cy d =>
      decide (e = 1) && (decide (cy = 1) || decide (cy = 2)) &&
        decide (d = DayOfWeek.monday),
    covered := fun cy d =>
      (decide (cy = 1) || decide (cy = 2)) && decide (d = DayOfWeek.monday),
    work := fun e cy d =>
      if e = 1 ∧ (cy = 1 ∨ cy = 2) ∧ d = DayOfWeek.monday then 60 else 0 }

/-- Expected first timeblock of the travel-buffer scenario:
06:00 - 07:00. -/
def blockA : TimeBlock :=
  { car_yard_id := 1, day := .monday, start_time := 360, finish_time := 420,
    employees := [1], per_employee_hours := 1 }

/-- Expected second timeblock of the travel-buffer scenario: the worker is
free again at 07:45 and the yard starts then. -/
def blockB : TimeBlock :=
  { car_yard_id := 2, day := .monday, start_time := 465, finish_time := 525,
    employees := [1], per_employee_hours := 1 }

/-- Yard declaring a weekly visit count of zero while participating in a
link: the link forces exactly one covered day regardless. -/
def y1C4 : CarYard :=
  { id := 1, name := "ZeroVisitYard", startTime := none, priority := .high,
    region := .north, required_days := none, linked_yard := some (2, 0),
    per_week := some (0, 0), min_employees := 1, max_employees := 1,
    hours_required := 1 }

/-- Plain partner yard of `y1C4`. -/
def y2C4 : CarYard :=
  { id := 2, name := "PartnerYard", startTime := none, priority := .high,
    region := .north, required_days := none, linked_yard := none,
    per_week := none, min_employees := 1, max_employees := 1,
    hours_required := 1 }

/-- Request whose only feasible solutions cover `y1C4` exactly once even
though `y1C4` declares a visit count of zero. -/
def reqC4 : ScheduleRequest :=
  { employees := [e1A], car_yards := [y1C4, y2C4], days := [.monday],
    yard_groups := none, max_hours_per_day := 7,
    earliest_start_time := none, travel_buffer_minutes := 30 }

/-- The tables `validate` produces for `reqC4` (no validation error). -/
def ctxC4 : ValidCtx :=
  { coverageReq := [(1, 0, 0), (2, 1, 0)], linkPairs := [((1, 2), 0)] }

/-- A feasible solution for `reqC4`: both yards covered Monday by the
single worker. -/
def solC4 : Solution :=
  { x := fun e cy d =>
      decide (e = 1) && (decide (cy = 1) || decide (cy = 2)) &&
        decide (d = DayOfWeek.monday),
    covered := fun cy d =>
      (decide (cy = 1) || decide (cy = 2)) && decide (d = DayOfWeek.monday),
    work := fun e cy d =>
      if e = 1 ∧ (cy = 1 ∨ cy = 2) ∧ d = DayOfWeek.monday then 60 else 0 }

/-- Request with duplicate employee ids (malformed). -/
def reqBadC8 : ScheduleRequest :=
  { reqA with employees := [e1A, e1A] }

/-- Yard whose `linked_yard` references the unknown yard id 99 with a
negative gap; the reference is silently ignored. -/
def yDangling : CarYard :=
  { id := 1, name := "DanglingLink", startTime := none, priority := .high,
    region := .north, required_days := none, linked_yard := some (99, -5),
    per_week := none, min_employees := 1, max_employees := 1,
    hours_required := 1 }

/-- Request containing only the dangling-link yard. -/
def reqD : ScheduleRequest :=
  { employees := [e1A], car_yards := [yDangling], days := [.monday],
    yard_groups := none, max_hours_per_day := 7,
    earliest_start_time := none, travel_buffer_minutes := 30 }

deriving instance DecidableEq for Except

instance (req : ScheduleRequest) : Decidable (MalformedC8 req) := by
  unfold MalformedC8
  infer_instance

theorem pyInt_eq_floor (q : ℚ) (h : 0 ≤ q) : pyInt q = ⌊q⌋ := by
  have hnum : 0 ≤ q.num := Rat.num_nonneg.mpr h
  have hden : (0 : ℤ) ≤ (q.den : ℤ) := Int.natCast_nonneg q.den
  unfold pyInt
  rw [Int.tdiv_eq_ediv hnum hden]
  conv_rhs => rw [← Rat.num_div_den q]
  rw [Rat.floor_intCast_div_natCast]

theorem pyInt_le (q : ℚ) (h : 0 ≤ q) : (pyInt q : ℚ) ≤ q := by
  rw [pyInt_eq_floor q h]
  exact Int.floor_le q

theorem wrap1440_eq_self (q : ℚ) (h0 : 0 ≤ q) (h1 : q < 1440) :
    wrap1440 q = q := by
  have hz : ⌊q / 1440⌋ = 0 := by
    rw [Int.floor_eq_zero_iff]
    constructor
    · positivity
    · rw [div_lt_one (by norm_num)]
      exact h1
  unfold wrap1440
  rw [hz]
  ring

theorem totalMinutes_y1A : totalMinutes y1A = 60 := by
  norm_num [totalMinutes, y1A, pyInt, Rat.num_ofNat, Rat.den_ofNat]

theorem totalMinutes_y2A : totalMinutes y2A = 60 := by
  norm_num [totalMinutes, y2A, y1A, pyInt, Rat.num_ofNat, Rat.den_ofNat]

theorem maxMinutes_reqA : maxMinutes reqA = 420 := by
  norm_num [maxMinutes, reqA, pyInt, Rat.num_ofNat, Rat.den_ofNat]

theorem workOkA : WorkOk reqA solA := by
  unfold WorkOk
  rw [show reqA.car_yards = [y1A, y2A] from rfl]
  simp only [List.forall_mem_cons, totalMinutes_y1A, totalMinutes_y2A]
  decide

theorem dailyCapA : DailyCapOk reqA solA := by
  unfold DailyCapOk
  simp only [maxMinutes_reqA]
  decide

theorem feasibleA : Feasible reqA ctxA solA :=
  ⟨by decide, by decide, by decide, workOkA, by decide, dailyCapA,
    by decide, by decide⟩

theorem totalMinutes_y1C4 : totalMinutes y1C4 = 60 := by
  norm_num [totalMinutes, y1C4, pyInt, Rat.num_ofNat, Rat.den_ofNat]

theorem totalMinutes_y2C4 : totalMinutes y2C4 = 60 := by
  norm_num [totalMinutes, y2C4, pyInt, Rat.num_ofNat, Rat.den_ofNat]

theorem maxMinutes_reqC4 : maxMinutes reqC4 = 420 := by
  norm_num [maxMinutes, reqC4, pyInt, Rat.num_ofNat, Rat.den_ofNat]

theorem workOkC4 : WorkOk reqC4 solC4 := by
  unfold WorkOk
  rw [show reqC4.car_yards = [y1C4, y2C4] from rfl]
  simp only [List.forall_mem_cons, totalMinutes_y1C4, totalMinutes_y2C4]
  decide

theorem dailyCapC4 : DailyCapOk reqC4 solC4 := by
  unfold DailyCapOk
  simp only [maxMinutes_reqC4]
  decide

theorem feasibleC4 : Feasible reqC4 ctxC4 solC4 :=
  ⟨by decide, by decide, by decide, workOkC4, by decide, dailyCapC4,
    by decide, by decide⟩

theorem dayIndexGo_not_mem (d : DayOfWeek) (l : List (ℕ × DayOfWeek))
    (h : ∀ p ∈ l, p.2 ≠ d) : ∀ acc, dayIndexGo d l acc = acc := by
  induction l with
  | nil => intro acc; rfl
  | cons p rest ih =>
    intro acc
    simp only [dayIndexGo]
    rw [if_neg (h p (List.mem_cons_self p rest))]
    exact ih (fun q hq => h q (List.mem_cons_of_mem p hq)) acc

theorem dayIndexGo_enumFrom (days : List DayOfWeek) (d : DayOfWeek) :
    ∀ (i : ℕ) (h : i < days.length), days.Nodup → days.get ⟨i, h⟩ = d →
    ∀ (n acc : ℕ), dayIndexGo d (List.enumFrom n days) acc = n + i := by
  induction days with
  | nil =>
    intro i h
    exact absurd h (Nat.not_lt_zero i)
  | cons a rest ih =>
    intro i h hnd hd n acc
    rw [List.enumFrom_cons]
    have hnda : a ∉ rest := (List.nodup_cons.mp hnd).1
    have hndr : rest.Nodup := (List.nodup_cons.mp hnd).2
    cases i with
    | zero =>
      have ha : a = d := hd
      simp only [dayIndexGo]
      rw [if_pos ha]
      have hnotin : ∀ p ∈ List.enumFrom (n + 1) rest, p.2 ≠ d := by
        intro p hp hcon
        have hmem : p.2 ∈ rest := by
          have := List.mem_map_of_mem Prod.snd hp
          rwa [List.enumFrom_map_snd] at this
        rw [hcon, ← ha] at hmem
        exact hnda hmem
      rw [dayIndexGo_not_mem d _ hnotin n]
      omega
    | succ j =>
      have hj : j < rest.length := Nat.lt_of_succ_lt_succ h
      have hd2 : rest.get ⟨j, hj⟩ = d := hd
      have hna : a ≠ d := by
        intro hcon
        have : d ∈ rest := hd2 ▸ List.get_mem rest j hj
        rw [← hcon] at this
        exact hnda this
      simp only [dayIndexGo]
      rw [if_neg hna]
      rw [ih j hj hndr hd2 (n + 1) acc]
      omega

theorem dayIndex_get (days : List DayOfWeek) (hnd : days.Nodup)
    (i : ℕ) (h : i < days.length) :
    dayIndex days (days.get ⟨i, h⟩) = i := by
  unfold dayIndex
  rw [show days.enum = List.enumFrom 0 days from rfl]
  rw [dayIndexGo_enumFrom days _ i h hnd rfl 0 0]
  omega

theorem sortedPairKey_cases (a b : ℤ) :
    sortedPairKey a b = (a, b) ∨ sortedPairKey a b = (b, a) := by
  unfold sortedPairKey
  split
  · exact Or.inl rfl
  · exact Or.inr rfl

theorem sortedPairKey_comm (a b : ℤ) :
    sortedPairKey a b = sortedPairKey b a := by
  unfold sortedPairKey
  rcases le_or_lt a b with h | h
  · rcases le_or_lt b a with h2 | h2
    · have hab : a = b := le_antisymm h h2
      subst hab
      rfl
    · rw [if_pos h, if_neg (not_le.mpr h2)]
  · rw [if_neg (not_le.mpr h), if_pos (le_of_lt h)]

theorem mem_of_lookup_some {α β : Type} [BEq α] [LawfulBEq α]
    {l : List (α × β)} {k : α} {v : β}
    (h : List.lookup k l = some v) : (k, v) ∈ l := by
  induction l with
  | nil => simp [List.lookup] at h
  | cons p rest ih =>
    rw [show p = (p.1, p.2) from rfl, List.lookup_cons] at h
    by_cases hk : k = p.1
    · simp only [show (k == p.1) = true from beq_iff_eq.mpr hk] at h
      injection h with h2
      simp [hk, ← h2]
    · simp only [show (k == p.1) = false from beq_eq_false_iff_ne.mpr hk]
        at h
      exact List.mem_cons_of_mem _ (ih h)

theorem lookup_none_not_key {α β : Type} [BEq α] [LawfulBEq α]
    {l : List (α × β)} {k : α}
    (h : List.lookup k l = none) : k ∉ l.map Prod.fst := by
  induction l with
  | nil => simp
  | cons p rest ih =>
    rw [show p = (p.1, p.2) from rfl, List.lookup_cons] at h
    by_cases hk : k = p.1
    · simp only [show (k == p.1) = true from beq_iff_eq.mpr hk] at h
      cases h
    · simp only [show (k == p.1) = false from beq_eq_false_iff_ne.mpr hk]
        at h
      simp only [List.map_cons, List.mem_cons]
      rintro (hc | hc)
      · exact hk hc
      · exact ih h hc

theorem nodupKeys_mem_unique {α β : Type} [DecidableEq α]
    {l : List (α × β)} {k : α} {v1 v2 : β}
    (hnd : (l.map Prod.fst).Nodup) (h1 : (k, v1) ∈ l) (h2 : (k, v2) ∈ l) :
    v1 = v2 := by
  induction l with
  | nil => cases h1
  | cons p rest ih =>
    simp only [List.map_cons, List.nodup_cons] at hnd
    rcases List.mem_cons.mp h1 with hc1 | hc1 <;>
      rcases List.mem_cons.mp h2 with hc2 | hc2
    · rw [← hc2] at hc1
      exact congrArg Prod.snd hc1
    · exfalso
      apply hnd.1
      have hpk : p.1 = k := (congrArg Prod.fst hc1).symm
      rw [hpk]
      exact List.mem_map_of_mem Prod.fst hc2
    · exfalso
      apply hnd.1
      have hpk : p.1 = k := (congrArg Prod.fst hc2).symm
      rw [hpk]
      exact List.mem_map_of_mem Prod.fst hc1
    · exact ih hnd.2 hc1 hc2

theorem stepYard_ok_cov {days : List DayOfWeek} {ids : List ℤ}
    {cy : CarYard} {covAcc : List (ℤ × ℤ × ℤ)}
    {linkAcc : List ((ℤ × ℤ) × ℤ)}
    {out : List (ℤ × ℤ × ℤ) × List ((ℤ × ℤ) × ℤ)}
    (h : stepYard days ids cy covAcc linkAcc = .ok out) :
    out.1 = covAcc ++ [entryOf cy] := by
  unfold stepYard at h
  split at h
  · simp at h
  · split at h
    · simp at h
    · split at h
      · cases h
        rfl
      · split at h
        · split at h
          · simp at h
          · split at h
            · simp at h
            · split at h
              · split at h
                · simp at h
                · cases h
                  rfl
              · cases h
                rfl
        · cases h
          rfl

theorem stepYard_ok_links {days : List DayOfWeek} {ids : List ℤ}
    {cy : CarYard} {covAcc : List (ℤ × ℤ × ℤ)}
    {linkAcc : List ((ℤ × ℤ) × ℤ)}
    {out : List (ℤ × ℤ × ℤ) × List ((ℤ × ℤ) × ℤ)}
    (h : stepYard days ids cy covAcc linkAcc = .ok out) :
    out.2 = linkAcc ∨
    ∃ lid gd, cy.linked_yard = some (lid, gd) ∧ lid ∈ ids ∧ ¬ gd < 0 ∧
      linkAcc.lookup (sortedPairKey cy.id lid) = none ∧
      out.2 = linkAcc ++ [(sortedPairKey cy.id lid, gd)] := by
  unfold stepYard at h
  split at h
  · simp at h
  · split at h
    · simp at h
    · split at h
      · cases h
        exact Or.inl rfl
      · rename_i lid gd heq
        split at h
        · split at h
          · simp at h
          · split at h
            · simp at h
            · split at h
              · split at h
                · simp at h
                · cases h
                  exact Or.inl rfl
              · cases h
                exact Or.inr ⟨lid, gd, heq, by assumption, by assumption,
                  by assumption, rfl⟩
        · cases h
          exact Or.inl rfl

theorem stepYard_ok_registered {days : List DayOfWeek} {ids : List ℤ}
    {cy : CarYard} {covAcc : List (ℤ × ℤ × ℤ)}
    {linkAcc : List ((ℤ × ℤ) × ℤ)}
    {out : List (ℤ × ℤ × ℤ) × List ((ℤ × ℤ) × ℤ)} {lid gd : ℤ}
    (h : stepYard days ids cy covAcc linkAcc = .ok out)
    (hl : cy.linked_yard = some (lid, gd)) (hm : lid ∈ ids) :
    (sortedPairKey cy.id lid, gd) ∈ out.2 := by
  unfold stepYard at h
  split at h
  · simp at h
  · split at h
    · simp at h
    · simp only [hl] at h
      rw [if_pos hm] at h
      split at h
      · simp at h
      · split at h
        · simp at h
        · split at h
          · rename_i g0 hlook
            split at h
            · simp at h
            · rename_i hne
              have hg : g0 = gd := not_not.mp hne
              cases h
              have hmem2 := mem_of_lookup_some hlook
              rw [← hg]
              exact hmem2
          · cases h
            exact List.mem_append_right _ (List.mem_singleton.mpr rfl)

theorem processYards_ok_cov {days : List DayOfWeek} {ids : List ℤ} :
    ∀ {l : List CarYard} {covAcc : List (ℤ × ℤ × ℤ)}
      {linkAcc : List ((ℤ × ℤ) × ℤ)}
      {out : List (ℤ × ℤ × ℤ) × List ((ℤ × ℤ) × ℤ)},
    processYards days ids l covAcc linkAcc = .ok out →
    out.1 = covAcc ++ l.map entryOf := by
  intro l
  induction l with
  | nil =>
    intro covAcc linkAcc out h
    cases h
    simp
  | cons cy rest ih =>
    intro covAcc linkAcc out h
    unfold processYards at h
    split at h
    · simp at h
    · rename_i c a heq
      have hcov : c = covAcc ++ [entryOf cy] := stepYard_ok_cov heq
      have hout := ih h
      rw [hout, hcov]
      simp

theorem processYards_links_mono {days : List DayOfWeek} {ids : List ℤ} :
    ∀ {l : List CarYard} {covAcc : List (ℤ × ℤ × ℤ)}
      {linkAcc : List ((ℤ × ℤ) × ℤ)}
      {out : List (ℤ × ℤ × ℤ) × List ((ℤ × ℤ) × ℤ)},
    processYards days ids l covAcc linkAcc = .ok out →
    ∀ p ∈ linkAcc, p ∈ out.2 := by
  intro l
  induction l with
  | nil =>
    intro covAcc linkAcc out h
    cases h
    intro p hp
    exact hp
  | cons cy rest ih =>
    intro covAcc linkAcc out h
    unfold processYards at h
    split at h
    · simp at h
    · rename_i c a heq
      intro p hp
      refine ih h p ?_
      have hcase : a = linkAcc ∨
          ∃ lid gd, cy.linked_yard = some (lid, gd) ∧ lid ∈ ids ∧
            ¬ gd < 0 ∧
            linkAcc.lookup (sortedPairKey cy.id lid) = none ∧
            a = linkAcc ++ [(sortedPairKey cy.id lid, gd)] :=
        stepYard_ok_links heq
      rcases hcase with hsame | ⟨lid, gd, _, _, _, _, happ⟩
      · rw [hsame]
        exact hp
      · rw [happ]
        exact List.mem_append_left _ hp

theorem processYards_registered {days : List DayOfWeek} {ids : List ℤ}
    {cy : CarYard} {lid gd : ℤ}
    (hl : cy.linked_yard = some (lid, gd)) (hm : lid ∈ ids) :
    ∀ {l : List CarYard} {covAcc : List (ℤ × ℤ × ℤ)}
      {linkAcc : List ((ℤ × ℤ) × ℤ)}
      {out : List (ℤ × ℤ × ℤ) × List ((ℤ × ℤ) × ℤ)},
    cy ∈ l →
    processYards days ids l covAcc linkAcc = .ok out →
    (sortedPairKey cy.id lid, gd) ∈ out.2 := by
  intro l
  induction l with
  | nil =>
    intro covAcc linkAcc out hcy
    cases hcy
  | cons a rest ih =>
    intro covAcc linkAcc out hcy h
    unfold processYards at h
    split at h
    · simp at h
    · rename_i c b heq
      rcases List.mem_cons.mp hcy with hc | hc
      · subst hc
        have hreg : (sortedPairKey cy.id lid, gd) ∈ b :=
          stepYard_ok_registered heq hl hm
        exact processYards_links_mono h _ hreg
      · exact ih hc h

theorem processYards_links_spec {days : List DayOfWeek} {ids : List ℤ}
    (P : (ℤ × ℤ) × ℤ → Prop) :
    ∀ {l : List CarYard} {covAcc : List (ℤ × ℤ × ℤ)}
      {linkAcc : List ((ℤ × ℤ) × ℤ)}
      {out : List (ℤ × ℤ × ℤ) × List ((ℤ × ℤ) × ℤ)},
    (∀ cy ∈ l, cy.id ∈ ids) →
    (∀ lid gd cyId, lid ∈ ids → cyId ∈ ids → ¬ gd < 0 →
      P (sortedPairKey cyId lid, gd)) →
    (∀ p ∈ linkAcc, P p) →
    processYards days ids l covAcc linkAcc = .ok out →
    ∀ p ∈ out.2, P p := by
  intro l
  induction l with
  | nil =>
    intro covAcc linkAcc out _ _ hacc h
    cases h
    exact hacc
  | cons a rest ih =>
    intro covAcc linkAcc out hids hP hacc h
    unfold processYards at h
    split at h
    · simp at h
    · rename_i c b heq
      refine ih (fun cy hcy => hids cy (List.mem_cons_of_mem a hcy)) hP
        ?_ h
      intro p hp
      have hcase : b = linkAcc ∨
          ∃ lid gd, a.linked_yard = some (lid, gd) ∧ lid ∈ ids ∧
            ¬ gd < 0 ∧
            linkAcc.lookup (sortedPairKey a.id lid) = none ∧
            b = linkAcc ++ [(sortedPairKey a.id lid, gd)] :=
        stepYard_ok_links heq
      rcases hcase with hsame | ⟨lid, gd, _, hmem, hneg, _, happ⟩
      · rw [hsame] at hp
        exact hacc p hp
      · rw [happ] at hp
        rcases List.mem_append.mp hp with hin | hin
        · exact hacc p hin
        · rw [List.mem_singleton.mp hin]
          exact hP lid gd a.id hmem (hids a (List.mem_cons_self a rest)) hneg

theorem processYards_nodupKeys {days : List DayOfWeek} {ids : List ℤ} :
    ∀ {l : List CarYard} {covAcc : List (ℤ × ℤ × ℤ)}
      {linkAcc : List ((ℤ × ℤ) × ℤ)}
      {out : List (ℤ × ℤ × ℤ) × List ((ℤ × ℤ) × ℤ)},
    (linkAcc.map Prod.fst).Nodup →
    processYards days ids l covAcc linkAcc = .ok out →
    (out.2.map Prod.fst).Nodup := by
  intro l
  induction l with
  | nil =>
    intro covAcc linkAcc out hnd h
    cases h
    exact hnd
  | cons a rest ih =>
    intro covAcc linkAcc out hnd h
    unfold processYards at h
    split at h
    · simp at h
    · rename_i c b heq
      refine ih ?_ h
      have hcase : b = linkAcc ∨
          ∃ lid gd, a.linked_yard = some (lid, gd) ∧ lid ∈ ids ∧
            ¬ gd < 0 ∧
            linkAcc.lookup (sortedPairKey a.id lid) = none ∧
            b = linkAcc ++ [(sortedPairKey a.id lid, gd)] :=
        stepYard_ok_links heq
      rcases hcase with hsame | ⟨lid, gd, _, _, _, hlook, happ⟩
      · rw [hsame]
        exact hnd
      · rw [happ]
        rw [List.map_append]
        rw [List.nodup_append]
        refine ⟨hnd, by simp, ?_⟩
        intro k hk
        simp only [List.map_cons, List.map_nil, List.mem_singleton]
        intro hc
        rw [hc] at hk
        exact lookup_none_not_key hlook hk

theorem validate_ok_parts {req : ScheduleRequest} {ctx : ValidCtx}
    (h : validate req = .ok ctx) :
    (req.employees.map (fun e => e.id)).Nodup ∧
    (req.car_yards.map (fun cy => cy.id)).Nodup ∧
    processYards req.days (yardIdsOf req) req.car_yards [] [] =
      .ok (ctx.coverageReq, ctx.linkPairs) ∧
    checkLinkedVisits ctx.coverageReq ctx.linkPairs = .ok () ∧
    checkLinkedRequiredDays ctx.linkPairs req.car_yards = .ok () := by
  unfold validate at h
  split at h
  · rename_i hemp
    split at h
    · rename_i hyard
      split at h
      · simp at h
      · split at h
        · simp at h
        · split at h
          · simp at h
          · split at h
            · simp at h
            · split at h
              · simp at h
              · split at h
                · simp at h
                · rename_i cov links hproc
                  split at h
                  · simp at h
                  · rename_i u hvis
                    split at h
                    · simp at h
                    · rename_i u2 hreq
                      cases h
                      refine ⟨hemp, hyard, ?_, ?_, ?_⟩
                      · exact hproc
                      · cases u
                        exact hvis
                      · cases u2
                        exact hreq
    · simp at h
  · simp at h

theorem validate_cov {req : ScheduleRequest} {ctx : ValidCtx}
    (h : validate req = .ok ctx) :
    ctx.coverageReq = req.car_yards.map entryOf := by
  have hparts := validate_ok_parts h
  have := processYards_ok_cov hparts.2.2.1
  simpa using this

theorem lookup_map_entryOf {l : List CarYard} {cy : CarYard}
    (hnd : (l.map (fun y => y.id)).Nodup) (hcy : cy ∈ l) :
    (l.map entryOf).lookup cy.id = some (perWeekReq cy) := by
  induction l with
  | nil => cases hcy
  | cons a rest ih =>
    simp only [List.map_cons, List.nodup_cons] at hnd
    rcases List.mem_cons.mp hcy with hc | hc
    · subst hc
      simp only [List.map_cons, List.lookup_cons, entryOf]
      rw [show (cy.id == cy.id) = true from beq_iff_eq.mpr rfl]
    · have hne : a.id ≠ cy.id := by
        intro hcon
        apply hnd.1
        rw [hcon]
        exact List.mem_map_of_mem (fun y => y.id) hc
      simp only [List.map_cons, List.lookup_cons, entryOf]
      rw [show (cy.id == a.id) = false from
        beq_eq_false_iff_ne.mpr (fun hcon => hne hcon.symm)]
      exact ih hnd.2 hc

theorem reqOf_eq {req : ScheduleRequest} {ctx : ValidCtx} {cy : CarYard}
    (h : validate req = .ok ctx) (hcy : cy ∈ req.car_yards) :
    reqOf ctx cy.id = perWeekReq cy := by
  unfold reqOf
  rw [validate_cov h,
    lookup_map_entryOf (validate_ok_parts h).2.1 hcy]
  rfl

theorem validate_linkPairs_spec {req : ScheduleRequest} {ctx : ValidCtx}
    (h : validate req = .ok ctx) :
    ∀ p ∈ ctx.linkPairs,
      p.1.1 ∈ yardIdsOf req ∧ p.1.2 ∈ yardIdsOf req ∧ 0 ≤ p.2 := by
  have hparts := validate_ok_parts h
  have hout := processYards_links_spec
    (fun p => p.1.1 ∈ yardIdsOf req ∧ p.1.2 ∈ yardIdsOf req ∧ 0 ≤ p.2)
    (fun cy hcy => List.mem_map_of_mem (fun y => y.id) hcy)
    ?_ (by intro p hp; cases hp) hparts.2.2.1
  · intro p hp
    exact hout p hp
  · intro lid gd cyId hlid hcyId hneg
    rcases sortedPairKey_cases cyId lid with hk | hk <;> rw [hk]
    · exact ⟨hcyId, hlid, by omega⟩
    · exact ⟨hlid, hcyId, by omega⟩

theorem validate_linkPairs_nodupKeys {req : ScheduleRequest}
    {ctx : ValidCtx} (h : validate req = .ok ctx) :
    (ctx.linkPairs.map Prod.fst).Nodup := by
  have hparts := validate_ok_parts h
  have := processYards_nodupKeys (by simp) hparts.2.2.1
  simpa using this

theorem validate_registered {req : ScheduleRequest} {ctx : ValidCtx}
    {cy : CarYard} {lid gd : ℤ}
    (h : validate req = .ok ctx) (hcy : cy ∈ req.car_yards)
    (hl : cy.linked_yard = some (lid, gd)) (hm : lid ∈ yardIdsOf req) :
    (sortedPairKey cy.id lid, gd) ∈ ctx.linkPairs := by
  have hparts := validate_ok_parts h
  have := processYards_registered hl hm hcy hparts.2.2.1
  simpa using this

theorem isLinkedIn_of_mem {links : List ((ℤ × ℤ) × ℤ)}
    {p : (ℤ × ℤ) × ℤ} (hp : p ∈ links) :
    isLinkedIn links p.1.1 = true ∧ isLinkedIn links p.1.2 = true := by
  unfold isLinkedIn
  constructor <;> rw [List.any_eq_true]
  · exact ⟨p, hp, by simp⟩
  · exact ⟨p, hp, by simp⟩

/-- C1: in every solution returned by `solve_roster`, for every
(yard, day) pair: if the coverage indicator is true the number of
assigned workers lies between the yard's `min_employees` and
`max_employees` inclusive, and if it is false then zero workers are
assigned and every worker's work-duration at that yard on that day is
zero. -/
theorem coverage_bounds_of_feasible (req : ScheduleRequest)
    (ctx : ValidCtx) (sol : Solution) (hv : validate req = .ok ctx)
    (hf : Feasible req ctx sol) :
    ∀ cy ∈ req.car_yards, ∀ d ∈ req.days,
      (sol.covered cy.id d = true →
        cy.min_employees ≤ countAssigned req sol cy.id d ∧
        countAssigned req sol cy.id d ≤ cy.max_employees) ∧
      (sol.covered cy.id d = false →
        countAssigned req sol cy.id d = 0 ∧
        ∀ e ∈ req.employees, sol.work e.id cy.id d = 0) := by
  intro cy hcy d hd
  have hcc := hf.2.2.1 cy hcy d hd
  have hw := hf.2.2.2.1 cy hcy d hd
  constructor
  · intro hcov
    rw [hcov] at hcc
    simpa using hcc
  · intro hcov
    rw [hcov] at hcc
    have hzero : countAssigned req sol cy.id d = 0 := by
      have := hcc.2
      simpa using this
    refine ⟨hzero, ?_⟩
    intro e he
    have hfil : ∀ a ∈ req.employees, ¬ sol.x a.id cy.id d = true := by
      rw [← List.filter_eq_nil_iff]
      unfold countAssigned at hzero
      exact List.length_eq_zero.mp hzero
    have hx : sol.x e.id cy.id d = false :=
      Bool.eq_false_iff.mpr (hfil e he)
    exact ((hw.1 e he).1 hx)

/-- C1 witness: the concrete request `reqA` with solution `solA`, at the
covered pair (yard 1, Monday). -/
theorem coverage_bounds_witness :
    y1A.min_employees ≤ countAssigned reqA solA y1A.id DayOfWeek.monday ∧
    countAssigned reqA solA y1A.id DayOfWeek.monday ≤ y1A.max_employees := by
  have h := coverage_bounds_of_feasible reqA ctxA solA (by decide)
    feasibleA y1A (by decide) DayOfWeek.monday (by decide)
  exact h.1 (by decide)

/-- C2: in every solution returned by `solve_roster`, for every worker and
day, the sum of work-duration minutes across all yards is at most the
configured `max_hours_per_day` converted to minutes, hence at most
`max_hours_per_day` when expressed in hours. -/
theorem daily_hour_cap_of_feasible (req : ScheduleRequest)
    (ctx : ValidCtx) (sol : Solution) (hv : validate req = .ok ctx)
    (hf : Feasible req ctx sol) :
    ∀ e ∈ req.employees, ∀ d ∈ req.days,
      (employeeDayMinutes req sol e.id d : ℤ) ≤ maxMinutes req ∧
      (0 ≤ req.max_hours_per_day →
        (employeeDayMinutes req sol e.id d : ℚ) ≤
          req.max_hours_per_day * 60) := by
  intro e he d hd
  have hcap := hf.2.2.2.2.2.1 e he d hd
  refine ⟨hcap, ?_⟩
  intro hpos
  have h60 : (0 : ℚ) ≤ req.max_hours_per_day * 60 := by positivity
  have hle : (maxMinutes req : ℚ) ≤ req.max_hours_per_day * 60 :=
    pyInt_le _ h60
  have hcast : ((employeeDayMinutes req sol e.id d : ℤ) : ℚ) ≤
      (maxMinutes req : ℚ) := Int.cast_le.mpr hcap
  push_cast at hcast
  linarith

/-- C2 witness: the concrete request `reqA` with solution `solA`. -/
theorem daily_hour_cap_witness :
    (employeeDayMinutes reqA solA e1A.id DayOfWeek.monday : ℤ) ≤
      maxMinutes reqA ∧
    (employeeDayMinutes reqA solA e1A.id DayOfWeek.monday : ℚ) ≤
      reqA.max_hours_per_day * 60 := by
  have h := daily_hour_cap_of_feasible reqA ctxA solA (by decide)
    feasibleA e1A (by decide) DayOfWeek.monday (by decide)
  refine ⟨h.1, h.2 ?_⟩
  norm_num [reqA]

/-- C3: in every solution returned by `solve_roster`, no assignment
exists on a day outside the worker's availability, and none at a yard
whose region equals the worker's excluded region. -/
theorem availability_of_feasible (req : ScheduleRequest)
    (ctx : ValidCtx) (sol : Solution) (hv : validate req = .ok ctx)
    (hf : Feasible req ctx sol) :
    ∀ e ∈ req.employees, ∀ cy ∈ req.car_yards, ∀ d ∈ req.days,
      sol.x e.id cy.id d = true →
      d ∈ e.available_days ∧ e.not_region ≠ some cy.region := by
  intro e he cy hcy d hd hx
  have hav := hf.2.1 e he cy hcy
  by_cases hreg : RegionExcluded e cy
  · have := hav.1 hreg d hd
    rw [hx] at this
    cases this
  · constructor
    · by_contra hmem
      have := hav.2 hreg d hd hmem
      rw [hx] at this
      cases this
    · exact hreg

/-- C3 witness: the concrete request `reqA` with solution `solA`. -/
theorem availability_witness :
    DayOfWeek.monday ∈ e1A.available_days ∧
    e1A.not_region ≠ some y1A.region :=
  availability_of_feasible reqA ctxA solA (by decide) feasibleA
    e1A (by decide) y1A (by decide) DayOfWeek.monday (by decide) (by decide)

/-- C4 (amended): in every returned solution, a yard participating in a
recognized link is covered exactly once regardless of its declared visit
count; an unlinked yard declaring `per_week` or explicit `required_days`
is covered exactly its configured number of times (default 1); an
unlinked yard declaring neither is covered at most that many times (and
may be skipped); and when more than one visit is required with a positive
minimum gap, any two covered days are at least the gap apart in day-index
distance. -/
theorem visit_frequency_of_feasible (req : ScheduleRequest)
    (ctx : ValidCtx) (sol : Solution) (hv : validate req = .ok ctx)
    (hf : Feasible req ctx sol) (hnd : req.days.Nodup) :
    ∀ cy ∈ req.car_yards,
      (isLinkedIn ctx.linkPairs cy.id = true →
        countCovered req sol cy.id = 1) ∧
      (isLinkedIn ctx.linkPairs cy.id = false →
        (hasPerWeek cy = true ∨ hasRequiredDays cy = true) →
        (countCovered req sol cy.id : ℤ) = (perWeekReq cy).1) ∧
      (isLinkedIn ctx.linkPairs cy.id = false → hasPerWeek cy = false →
        hasRequiredDays cy = false →
        (countCovered req sol cy.id : ℤ) ≤ (perWeekReq cy).1) ∧
      (1 < (perWeekReq cy).1 → 0 < (perWeekReq cy).2 →
        ∀ (i j : ℕ) (hi : i < req.days.length)
          (hj : j < req.days.length), i < j →
          sol.covered cy.id (req.days.get ⟨i, hi⟩) = true →
          sol.covered cy.id (req.days.get ⟨j, hj⟩) = true →
          (perWeekReq cy).2 ≤ (j : ℤ) - (i : ℤ)) := by
  intro cy hcy
  have hfreq := hf.2.2.2.2.2.2.1 cy hcy
  have hro : reqOf ctx cy.id = perWeekReq cy := reqOf_eq hv hcy
  rw [hro] at hfreq
  refine ⟨hfreq.2.2.1, hfreq.1, hfreq.2.1, ?_⟩
  intro h1 h2 i j hi hj hij hci hcj
  by_contra hlt
  push_neg at hlt
  have hp1 : (i, req.days.get ⟨i, hi⟩) ∈ req.days.enum := by
    rw [List.mk_mem_enum_iff_getElem?]
    rw [List.getElem?_eq_getElem hi]
    rw [List.get_eq_getElem]
  have hp2 : (j, req.days.get ⟨j, hj⟩) ∈ req.days.enum := by
    rw [List.mk_mem_enum_iff_getElem?]
    rw [List.getElem?_eq_getElem hj]
    rw [List.get_eq_getElem]
  have hgap : dayIdxZ req.days (req.days.get ⟨j, hj⟩) -
      dayIdxZ req.days (req.days.get ⟨i, hi⟩) < (perWeekReq cy).2 := by
    unfold dayIdxZ
    rw [dayIndex_get req.days hnd j hj, dayIndex_get req.days hnd i hi]
    exact_mod_cast hlt
  exact hfreq.2.2.2.1 h1 h2 _ hp1 _ hp2 hij hgap ⟨hci, hcj⟩

/-- C4 counterexample: `reqC4` passes validation, `solC4` satisfies all
model constraints (so it is a solution the engine may return), its yard 1
declares a weekly visit count, and yet its covered-day count (one, forced
by the link) differs from the declared count (zero).  This refutes the
claim that a yard declaring `per_week` is always covered exactly its
configured number of times. -/
theorem visit_frequency_counterexample :
    validate reqC4 = .ok ctxC4 ∧ Feasible reqC4 ctxC4 solC4 ∧
    reqC4.days.Nodup ∧ y1C4 ∈ reqC4.car_yards ∧
    hasPerWeek y1C4 = true ∧
    (countCovered reqC4 solC4 y1C4.id : ℤ) ≠ (perWeekReq y1C4).1 :=
  ⟨by decide, feasibleC4, by decide, by decide, by decide, by decide⟩

/-- C4 witness (for the amended claim): the concrete request `reqC4`,
whose yard 1 is linked and therefore covered exactly once. -/
theorem visit_frequency_witness :
    countCovered reqC4 solC4 y1C4.id = 1 := by
  have h := visit_frequency_of_feasible reqC4 ctxC4 solC4 (by decide)
    feasibleC4 (by decide) y1C4 (by decide)
  exact h.1 (by decide)

/-- C5: in every returned solution, for every recognized linked pair: a
gap of 0 forces identical coverage on every day; a positive gap keeps
every covered day of one yard at least the gap away (in day-index
distance) from every covered day of the other; and both yards of the pair
are covered exactly once. -/
theorem linked_yards_of_feasible (req : ScheduleRequest)
    (ctx : ValidCtx) (sol : Solution) (hv : validate req = .ok ctx)
    (hf : Feasible req ctx sol) (hnd : req.days.Nodup) :
    ∀ pr ∈ ctx.linkPairs,
      (pr.2 = 0 →
        ∀ d ∈ req.days, sol.covered pr.1.1 d = sol.covered pr.1.2 d) ∧
      (0 < pr.2 →
        ∀ (i j : ℕ) (hi : i < req.days.length)
          (hj : j < req.days.length),
          sol.covered pr.1.1 (req.days.get ⟨i, hi⟩) = true →
          sol.covered pr.1.2 (req.days.get ⟨j, hj⟩) = true →
          pr.2 ≤ |(i : ℤ) - (j : ℤ)|) ∧
      countCovered req sol pr.1.1 = 1 ∧
      countCovered req sol pr.1.2 = 1 := by
  intro pr hpr
  have hlk := hf.2.2.2.2.2.2.2 pr hpr
  have hspec := validate_linkPairs_spec hv pr hpr
  have hcount : countCovered req sol pr.1.1 = 1 ∧
      countCovered req sol pr.1.2 = 1 := by
    have hL := isLinkedIn_of_mem hpr
    constructor
    · rcases List.mem_map.mp hspec.1 with ⟨cy1, hcy1, hid1⟩
      have := (hf.2.2.2.2.2.2.1 cy1 hcy1).2.2.1
      rw [hid1] at this
      exact this hL.1
    · rcases List.mem_map.mp hspec.2.1 with ⟨cy2, hcy2, hid2⟩
      have := (hf.2.2.2.2.2.2.1 cy2 hcy2).2.2.1
      rw [hid2] at this
      exact this hL.2
  refine ⟨?_, ?_, hcount⟩
  · intro hz d hd
    exact hlk.1 (le_of_eq hz) d hd
  · intro hpos i j hi hj hci hcj
    by_contra hlt
    push_neg at hlt
    have habs : |dayIdxZ req.days (req.days.get ⟨i, hi⟩) -
        dayIdxZ req.days (req.days.get ⟨j, hj⟩)| < pr.2 := by
      unfold dayIdxZ
      rw [dayIndex_get req.days hnd i hi, dayIndex_get req.days hnd j hj]
      exact hlt
    exact hlk.2 hpos _ (List.get_mem req.days i hi) _
      (List.get_mem req.days j hj) habs ⟨hci, hcj⟩

/-- C5 witness: the concrete request `reqA`, whose two yards are linked
with gap 0: coverage matches on Monday and each yard is covered exactly
once. -/
theorem linked_yards_witness :
    solA.covered 1 DayOfWeek.monday = solA.covered 2 DayOfWeek.monday ∧
    countCovered reqA solA 1 = 1 ∧ countCovered reqA solA 2 = 1 := by
  have h := linked_yards_of_feasible reqA ctxA solA (by decide) feasibleA
    (by decide) ((1, 2), 0) (by decide)
  exact ⟨h.1 rfl DayOfWeek.monday (by decide), h.2.2⟩

theorem insertByKey_mem {ds : ℚ} {a p : CarYard × List ℤ} :
    ∀ {l : List (CarYard × List ℤ)}, p ∈ insertByKey ds a l →
    p = a ∨ p ∈ l := by
  intro l
  induction l with
  | nil =>
    intro hp
    simp only [insertByKey, List.mem_singleton] at hp
    exact Or.inl hp
  | cons b rest ih =>
    intro hp
    rw [insertByKey] at hp
    split at hp
    · rcases List.mem_cons.mp hp with hc | hc
      · exact Or.inl hc
      · exact Or.inr hc
    · rcases List.mem_cons.mp hp with hc | hc
      · exact Or.inr (hc ▸ List.mem_cons_self b rest)
      · rcases ih hc with hc2 | hc2
        · exact Or.inl hc2
        · exact Or.inr (List.mem_cons_of_mem b hc2)

theorem sortYards_mem {ds : ℚ} {p : CarYard × List ℤ} :
    ∀ {l : List (CarYard × List ℤ)}, p ∈ sortYards ds l → p ∈ l := by
  intro l
  induction l with
  | nil =>
    intro hp
    exact hp
  | cons a rest ih =>
    intro hp
    unfold sortYards at hp
    rw [List.foldr_cons] at hp
    rcases insertByKey_mem hp with hc | hc
    · exact hc ▸ List.mem_cons_self a rest
    · exact List.mem_cons_of_mem a (ih hc)

theorem dayYards_mem {req : ScheduleRequest} {sol : Solution}
    {d : DayOfWeek} {p : CarYard × List ℤ} (hp : p ∈ dayYards req sol d) :
    p.1 ∈ req.car_yards ∧ p.2 = assignedEmployees req sol p.1.id d := by
  unfold dayYards at hp
  rcases List.mem_map.mp hp with ⟨cy, hcy, heq⟩
  have h1 := (List.mem_filter.mp hcy).1
  cases heq
  exact ⟨h1, rfl⟩

theorem runDay_mem {req : ScheduleRequest} {ds : ℚ} {d : DayOfWeek} :
    ∀ (yards : List (CarYard × List ℤ)) (avail : ℤ → ℚ) (b : TimeBlock),
    b ∈ runDay req ds d yards avail →
    ∃ p ∈ yards, b.car_yard_id = p.1.id ∧ b.day = d ∧
      b.employees = p.2 ∧
      b.per_employee_hours = p.1.hours_required / (p.2.length : ℚ) ∧
      b.finish_time = addMinutes b.start_time
        (b.per_employee_hours * 60) := by
  intro yards
  induction yards with
  | nil =>
    intro avail b hb
    simp [runDay] at hb
  | cons p rest ih =>
    intro avail b hb
    rcases p with ⟨cy, empIds⟩
    rw [runDay] at hb
    split at hb
    · rcases ih _ b hb with ⟨q, hq, hrest⟩
      exact ⟨q, List.mem_cons_of_mem _ hq, hrest⟩
    · rcases List.mem_cons.mp hb with hc | hc
      · subst hc
        refine ⟨(cy, empIds), List.mem_cons_self _ _, rfl, rfl, rfl,
          rfl, rfl⟩
      · rcases ih _ b hc with ⟨q, hq, hrest⟩
        exact ⟨q, List.mem_cons_of_mem _ hq, hrest⟩

theorem yardTimeblocks_mem {req : ScheduleRequest} {sol : Solution}
    {b : TimeBlock} (hb : b ∈ yardTimeblocks req sol) :
    ∃ d ∈ req.days,
      b ∈ runDay req (defaultStartOf req) d
        (sortYards (defaultStartOf req) (dayYards req sol d))
        (fun _ => defaultStartOf req) := by
  unfold yardTimeblocks at hb
  rcases List.mem_flatMap.mp hb with ⟨d, hd, hbin⟩
  exact ⟨d, hd, hbin⟩

/-- C6: for every covered (yard, day) in a returned solution, the
per-worker integer work minutes sum to the yard's total required minutes
and any two simultaneously assigned workers differ by at most one minute;
and every emitted timeblock finishes exactly
`hours_required / (number of assigned workers)` hours after its start
(time-of-day arithmetic), its worker set being exactly the assigned
workers of that yard and day. -/
theorem equal_split_of_feasible (req : ScheduleRequest) (ctx : ValidCtx)
    (sol : Solution) (hv : validate req = .ok ctx)
    (hf : Feasible req ctx sol) :
    (∀ cy ∈ req.car_yards, ∀ d ∈ req.days, sol.covered cy.id d = true →
      (sumWorkAtYard req sol cy.id d : ℤ) = totalMinutes cy ∧
      (∀ e1 ∈ req.employees, ∀ e2 ∈ req.employees,
        sol.x e1.id cy.id d = true → sol.x e2.id cy.id d = true →
        (sol.work e1.id cy.id d : ℤ) - (sol.work e2.id cy.id d : ℤ) ≤ 1)) ∧
    (∀ b ∈ yardTimeblocks req sol,
      b.finish_time = addMinutes b.start_time
        (b.per_employee_hours * 60) ∧
      ∃ cy ∈ req.car_yards, b.car_yard_id = cy.id ∧
        b.employees = assignedEmployees req sol cy.id b.day ∧
        b.per_employee_hours =
          cy.hours_required / (b.employees.length : ℚ)) := by
  constructor
  · intro cy hcy d hd hcov
    refine ⟨(hf.2.2.2.1 cy hcy d hd).2.1 hcov, ?_⟩
    intro e1 he1 e2 he2 hx1 hx2
    exact hf.2.2.2.2.1 cy hcy d hd e1 he1 e2 he2 hx1 hx2
  · intro b hb
    rcases yardTimeblocks_mem hb with ⟨d, hd, hbin⟩
    rcases runDay_mem _ _ b hbin with
      ⟨p, hp, hid, hday, hemps, hper, hfin⟩
    have hpy := dayYards_mem (sortYards_mem hp)
    refine ⟨hfin, p.1, hpy.1, hid, ?_, ?_⟩
    · rw [hemps, hpy.2, hday]
    · rw [hper, hemps]

/-- C6 witness: in the concrete request `reqA`, yard 1 is covered Monday
and the assigned work minutes sum to its 60 required minutes. -/
theorem equal_split_witness :
    (sumWorkAtYard reqA solA y1A.id DayOfWeek.monday : ℤ) =
      totalMinutes y1A := by
  have h := equal_split_of_feasible reqA ctxA solA (by decide) feasibleA
  exact (h.1 y1A (by decide) DayOfWeek.monday (by decide) (by decide)).1

theorem foldl_max_init (l : List ℚ) : ∀ init : ℚ, init ≤ l.foldl max init := by
  induction l with
  | nil => intro init; exact le_refl init
  | cons a rest ih =>
    intro init
    rw [List.foldl_cons]
    exact le_trans (le_max_left init a) (ih (max init a))

theorem foldl_max_mem (l : List ℚ) : ∀ (init x : ℚ), x ∈ l →
    x ≤ l.foldl max init := by
  induction l with
  | nil => intro init x hx; cases hx
  | cons a rest ih =>
    intro init x hx
    rw [List.foldl_cons]
    rcases List.mem_cons.mp hx with hc | hc
    · rw [hc]
      exact le_trans (le_max_right init a) (foldl_max_init rest _)
    · exact ih _ x hc

theorem runDay_start_ge {req : ScheduleRequest} {ds : ℚ} {d : DayOfWeek} :
    ∀ (yards : List (CarYard × List ℤ)) (avail : ℤ → ℚ),
    (∀ b ∈ runDay req ds d yards avail,
      0 ≤ b.per_employee_hours ∧ 0 ≤ b.start_time ∧
      b.start_time + b.per_employee_hours * 60 +
        (req.travel_buffer_minutes : ℚ) < 1440) →
    ∀ b ∈ runDay req ds d yards avail, ∀ e ∈ b.employees,
      avail e ≤ b.start_time := by
  intro yards
  induction yards with
  | nil =>
    intro avail hfit b hb
    simp [runDay] at hb
  | cons p rest ih =>
    intro avail hfit b hb
    rcases p with ⟨cy, empIds⟩
    simp only [runDay] at hb hfit
    by_cases hemp : empIds.isEmpty
    · rw [if_pos hemp] at hb hfit
      exact ih avail hfit b hb
    · rw [if_neg hemp] at hb hfit
      intro e he
      rcases List.mem_cons.mp hb with hc | hc
      · subst hc
        exact foldl_max_mem _ _ _ (List.mem_map_of_mem avail he)
      · have hfithead := hfit _ (List.mem_cons_self _ _)
        have hbuf : (0 : ℚ) ≤ (req.travel_buffer_minutes : ℚ) := by
          positivity
        have hper : (0 : ℚ) ≤ cy.hours_required / (empIds.length : ℚ) :=
          hfithead.1
        have hstart0 : (0 : ℚ) ≤
            (empIds.map avail).foldl max (cy.startTime.getD ds) :=
          hfithead.2.1
        have hdur : (0 : ℚ) ≤ cy.hours_required / (empIds.length : ℚ) * 60 :=
          by positivity
        have hlt : (empIds.map avail).foldl max (cy.startTime.getD ds) +
            cy.hours_required / (empIds.length : ℚ) * 60 +
            (req.travel_buffer_minutes : ℚ) < 1440 := hfithead.2.2
        have hfin : addMinutes
            ((empIds.map avail).foldl max (cy.startTime.getD ds))
            (cy.hours_required / (empIds.length : ℚ) * 60) =
            (empIds.map avail).foldl max (cy.startTime.getD ds) +
            cy.hours_required / (empIds.length : ℚ) * 60 := by
          unfold addMinutes
          exact wrap1440_eq_self _ (by linarith) (by linarith)
        have hx := ih _ (fun b2 hb2 => hfit b2 (List.mem_cons_of_mem _ hb2))
          b hc e he
        refine le_trans ?_ hx
        by_cases hmem : e ∈ empIds
        · rw [if_pos hmem]
          rw [hfin]
          unfold addMinutes
          rw [wrap1440_eq_self _ (by linarith) (by linarith)]
          have hav : avail e ≤
              (empIds.map avail).foldl max (cy.startTime.getD ds) :=
            foldl_max_mem _ _ _ (List.mem_map_of_mem avail hmem)
          linarith
        · rw [if_neg hmem]

/-- C7: in the post-solve scheduler, a worker's next yard on the same day
starts no earlier than their previous yard's finish time plus the travel
buffer (whenever the day's schedule stays within the day, i.e. no
time-of-day wrap-around occurs).  `b1` is any earlier block and `b2` any
later block of the same day sharing the worker `e`. -/
theorem scheduler_travel_buffer (req : ScheduleRequest) (ds : ℚ)
    (d : DayOfWeek) :
    ∀ (yards : List (CarYard × List ℤ)) (avail : ℤ → ℚ),
    (∀ b ∈ runDay req ds d yards avail,
      0 ≤ b.per_employee_hours ∧ 0 ≤ b.start_time ∧
      b.start_time + b.per_employee_hours * 60 +
        (req.travel_buffer_minutes : ℚ) < 1440) →
    ∀ (l1 : List TimeBlock) (b1 : TimeBlock) (l2 : List TimeBlock)
      (b2 : TimeBlock) (l3 : List TimeBlock),
    runDay req ds d yards avail = l1 ++ b1 :: (l2 ++ b2 :: l3) →
    ∀ e, e ∈ b1.employees → e ∈ b2.employees →
    b1.finish_time + (req.travel_buffer_minutes : ℚ) ≤ b2.start_time := by
  intro yards
  induction yards with
  | nil =>
    intro avail hfit l1 b1 l2 b2 l3 heq e he1 he2
    rw [runDay] at heq
    rcases l1 with _ | ⟨b0, l1t⟩ <;> simp at heq
  | cons p rest ih =>
    intro avail hfit l1 b1 l2 b2 l3 heq e he1 he2
    rcases p with ⟨cy, empIds⟩
    simp only [runDay] at heq hfit
    by_cases hemp : empIds.isEmpty
    · rw [if_pos hemp] at heq hfit
      exact ih avail hfit l1 b1 l2 b2 l3 heq e he1 he2
    · rw [if_neg hemp] at heq hfit
      have hfithead := hfit _ (List.mem_cons_self _ _)
      have hbuf : (0 : ℚ) ≤ (req.travel_buffer_minutes : ℚ) := by
        positivity
      have hper : (0 : ℚ) ≤ cy.hours_required / (empIds.length : ℚ) :=
        hfithead.1
      have hstart0 : (0 : ℚ) ≤
          (empIds.map avail).foldl max (cy.startTime.getD ds) :=
        hfithead.2.1
      have hdur : (0 : ℚ) ≤
          cy.hours_required / (empIds.length : ℚ) * 60 := by positivity
      have hlt : (empIds.map avail).foldl max (cy.startTime.getD ds) +
          cy.hours_required / (empIds.length : ℚ) * 60 +
          (req.travel_buffer_minutes : ℚ) < 1440 := hfithead.2.2
      have hfin : addMinutes
          ((empIds.map avail).foldl max (cy.startTime.getD ds))
          (cy.hours_required / (empIds.length : ℚ) * 60) =
          (empIds.map avail).foldl max (cy.startTime.getD ds) +
          cy.hours_required / (empIds.length : ℚ) * 60 := by
        unfold addMinutes
        exact wrap1440_eq_self _ (by linarith) (by linarith)
      rcases l1 with _ | ⟨b0, l1t⟩
      · rw [List.nil_append] at heq
        injection heq with hb1 hrest
        have hb2mem : b2 ∈ runDay req ds d rest (fun e2 =>
            if e2 ∈ empIds then
              addMinutes (addMinutes
                ((empIds.map avail).foldl max (cy.startTime.getD ds))
                (cy.hours_required / (empIds.length : ℚ) * 60))
                (req.travel_buffer_minutes : ℚ)
            else avail e2) := by
          rw [hrest]
          exact List.mem_append_right _ (List.mem_cons_self _ _)
        have hge := runDay_start_ge rest _
          (fun b hb => hfit b (List.mem_cons_of_mem _ hb)) b2 hb2mem e he2
        have hmem : e ∈ empIds := by
          rw [← hb1] at he1
          exact he1
        rw [if_pos hmem] at hge
        rw [hfin] at hge
        unfold addMinutes at hge
        rw [wrap1440_eq_self _ (by linarith) (by linarith)] at hge
        rw [← hb1]
        show addMinutes
          ((empIds.map avail).foldl max (cy.startTime.getD ds))
          (cy.hours_required / (empIds.length : ℚ) * 60) +
          (req.travel_buffer_minutes : ℚ) ≤ b2.start_time
        rw [hfin]
        linarith
      · rw [List.cons_append] at heq
        injection heq with hb0 hrest
        exact ih _ (fun b hb => hfit b (List.mem_cons_of_mem _ hb))
          l1t b1 l2 b2 l3 hrest e he1 he2

theorem runDayB_eval :
    runDay reqB (defaultStartOf reqB) DayOfWeek.monday
      [(y1B, [1]), (y2B, [1])] (fun _ => defaultStartOf reqB) =
      [blockA, blockB] := by
  simp only [runDay, List.isEmpty, defaultStartOf, reqB, y1B, y2B]
  norm_num [addMinutes, wrap1440, blockA, blockB, List.map, List.foldl]

theorem yardTimeblocksB_eval :
    yardTimeblocks reqB solB = [blockA, blockB] := by
  unfold yardTimeblocks
  rw [show reqB.days = [DayOfWeek.monday] from rfl]
  rw [List.flatMap_cons, List.flatMap_nil, List.append_nil]
  rw [show dayYards reqB solB DayOfWeek.monday = [(y1B, [1]), (y2B, [1])]
    from by decide]
  rw [show sortYards (defaultStartOf reqB) [(y1B, [1]), (y2B, [1])] =
    [(y1B, [1]), (y2B, [1])] from by decide]
  exact runDayB_eval

/-- C7 witness: the scenario with two 1-hour yards, a 45-minute travel
buffer, one worker and default start 06:00.  The first yard is scheduled
06:00-07:00 (minutes 360-420), the second starts at 07:45 (minute 465),
which is no earlier than the first finish plus the buffer, by the
travel-buffer theorem applied at this concrete input. -/
theorem scheduler_travel_buffer_witness :
    yardTimeblocks reqB solB = [blockA, blockB] ∧
    blockA.start_time = 360 ∧ blockA.finish_time = 420 ∧
    blockB.start_time = 465 ∧
    blockA.finish_time + (reqB.travel_buffer_minutes : ℚ) ≤
      blockB.start_time := by
  refine ⟨yardTimeblocksB_eval, rfl, rfl, rfl, ?_⟩
  have hrun : runDay reqB (defaultStartOf reqB) DayOfWeek.monday
      [(y1B, [1]), (y2B, [1])] (fun _ => defaultStartOf reqB) =
      [] ++ blockA :: ([] ++ blockB :: []) := by
    rw [runDayB_eval]
    rfl
  have hfit : ∀ b ∈ runDay reqB (defaultStartOf reqB) DayOfWeek.monday
      [(y1B, [1]), (y2B, [1])] (fun _ => defaultStartOf reqB),
      0 ≤ b.per_employee_hours ∧ 0 ≤ b.start_time ∧
      b.start_time + b.per_employee_hours * 60 +
        (reqB.travel_buffer_minutes : ℚ) < 1440 := by
    rw [runDayB_eval]
    intro b hb
    rcases List.mem_cons.mp hb with hc | hc
    · rw [hc]
      refine ⟨by norm_num [blockA], by norm_num [blockA], ?_⟩
      norm_num [blockA, reqB]
    · rw [List.mem_singleton.mp hc]
      refine ⟨by norm_num [blockB], by norm_num [blockB], ?_⟩
      norm_num [blockB, reqB]
  exact scheduler_travel_buffer reqB (defaultStartOf reqB) DayOfWeek.monday
    [(y1B, [1]), (y2B, [1])] (fun _ => defaultStartOf reqB) hfit
    [] blockA [] blockB [] hrun 1 (by decide) (by decide)

/-- C9: when the solver reports optimal or feasible but extraction yields
zero assignments, `solve_roster` raises the usage error instead of
returning an empty success; a response is returned only when at least one
assignment exists. -/
theorem zero_assignments_error (req : ScheduleRequest)
    (status : SolverStatus) (sol : Solution)
    (hst : status ≠ SolverStatus.infeasible) :
    ((rawAssignments req sol).isEmpty = true →
      ∀ ctx, validate req = .ok ctx →
        solve_roster req status sol = .error .noAssignments) ∧
    (∀ resp, solve_roster req status sol = .ok resp →
      resp.assignments ≠ []) := by
  constructor
  · intro hempty ctx hv
    unfold solve_roster
    rw [hv]
    cases status with
    | infeasible => exact absurd rfl hst
    | optimal => simp [hempty]
    | feasible => simp [hempty]
  · intro resp hok
    unfold solve_roster at hok
    cases hval : validate req with
    | error e =>
      rw [hval] at hok
      simp at hok
    | ok ctx =>
      rw [hval] at hok
      cases status with
      | infeasible => simp at hok
      | optimal =>
        by_cases hempty : (rawAssignments req sol).isEmpty = true
        · simp [hempty] at hok
        · rw [show (rawAssignments req sol).isEmpty = false from
            Bool.eq_false_iff.mpr hempty] at hok
          simp only [Bool.false_eq_true, if_false] at hok
          injection hok with hok2
          rw [← hok2]
          simp only [buildResponse]
          rw [Ne, List.map_eq_nil_iff]
          intro hnil
          rw [hnil] at hempty
          exact hempty rfl
      | feasible =>
        by_cases hempty : (rawAssignments req sol).isEmpty = true
        · simp [hempty] at hok
        · rw [show (rawAssignments req sol).isEmpty = false from
            Bool.eq_false_iff.mpr hempty] at hok
          simp only [Bool.false_eq_true, if_false] at hok
          injection hok with hok2
          rw [← hok2]
          simp only [buildResponse]
          rw [Ne, List.map_eq_nil_iff]
          intro hnil
          rw [hnil] at hempty
          exact hempty rfl

/-- C9 witness: with the all-zero solution the usage error is raised;
with the non-trivial solution `solA` the returned response has a
non-empty assignment list. -/
theorem zero_assignments_witness :
    solve_roster reqA SolverStatus.feasible solEmptyA =
      .error .noAssignments ∧
    (buildResponse reqA solA SolverStatus.feasible).assignments ≠ [] := by
  constructor
  · exact (zero_assignments_error reqA SolverStatus.feasible solEmptyA
      (by decide)).1 (by decide) ctxA (by decide)
  · have hok : solve_roster reqA SolverStatus.feasible solA =
        .ok (buildResponse reqA solA SolverStatus.feasible) := by
      unfold solve_roster
      rw [show validate reqA = .ok ctxA from by decide]
      simp [show (rawAssignments reqA solA).isEmpty = false from by decide]
    exact (zero_assignments_error reqA SolverStatus.feasible solA
      (by decide)).2 _ hok

theorem checkMinMax_ok {u : Unit} :
    ∀ {l : List CarYard}, checkMinMax l = .ok u →
    ∀ cy ∈ l, ¬ cy.max_employees < cy.min_employees := by
  intro l
  induction l with
  | nil =>
    intro _ cy hcy
    cases hcy
  | cons a rest ih =>
    intro h cy hcy
    unfold checkMinMax at h
    split at h
    · simp at h
    · rcases List.mem_cons.mp hcy with hc | hc
      · subst hc
        assumption
      · exact ih h cy hc

theorem checkGroups_ok {ids : List ℤ} {u : Unit} :
    ∀ {gl : List (String × List ℤ)}, checkGroups ids gl = .ok u →
    ∀ g ∈ gl, ∀ i ∈ g.2, i ∈ ids := by
  intro gl
  induction gl with
  | nil =>
    intro _ g hg
    cases hg
  | cons a rest ih =>
    intro h g hg
    unfold checkGroups at h
    split at h
    · simp at h
    · rename_i hall
      rcases List.mem_cons.mp hg with hc | hc
      · subst hc
        exact not_not.mp hall
      · exact ih h g hc

theorem checkLinkedVisits_ok {cov : List (ℤ × ℤ × ℤ)} {u : Unit} :
    ∀ {L : List ((ℤ × ℤ) × ℤ)}, checkLinkedVisits cov L = .ok u →
    ∀ p ∈ L, visitsTooMany cov p.1.1 = false ∧
      visitsTooMany cov p.1.2 = false := by
  intro L
  induction L with
  | nil =>
    intro _ p hp
    cases hp
  | cons a rest ih =>
    intro h p hp
    rcases a with ⟨⟨s, t⟩, g⟩
    unfold checkLinkedVisits at h
    split at h
    · simp at h
    · split at h
      · simp at h
      · rcases List.mem_cons.mp hp with hc | hc
        · subst hc
          constructor
          · exact Bool.eq_false_iff.mpr (by assumption)
          · exact Bool.eq_false_iff.mpr (by assumption)
        · exact ih h p hc

theorem stepYard_ok_checks {days : List DayOfWeek} {ids : List ℤ}
    {cy : CarYard} {covAcc : List (ℤ × ℤ × ℤ)}
    {linkAcc : List ((ℤ × ℤ) × ℤ)}
    {out : List (ℤ × ℤ × ℤ) × List ((ℤ × ℤ) × ℤ)}
    (h : stepYard days ids cy covAcc linkAcc = .ok out) :
    ¬ (hasPerWeek cy = true ∧ (days.length : ℤ) < (perWeekReq cy).1) ∧
    knownNegativeGapLink ids cy = false ∧
    knownLinkTooManyVisits ids cy = false := by
  unfold stepYard at h
  split at h
  · simp at h
  · rename_i hc1
    split at h
    · simp at h
    · split at h
      · rename_i heq
        refine ⟨hc1, ?_, ?_⟩
        · simp [knownNegativeGapLink, heq]
        · simp [knownLinkTooManyVisits, heq]
      · rename_i lid gd heq
        split at h
        · rename_i hmem
          split at h
          · simp at h
          · rename_i hgd
            split at h
            · simp at h
            · rename_i hv
              refine ⟨hc1, ?_, ?_⟩
              · simp [knownNegativeGapLink, heq, hgd]
              · simp [knownLinkTooManyVisits, heq, hv]
        · rename_i hmem
          refine ⟨hc1, ?_, ?_⟩
          · simp [knownNegativeGapLink, heq, hmem]
          · simp [knownLinkTooManyVisits, heq, hmem]

theorem processYards_ok_checks {days : List DayOfWeek} {ids : List ℤ} :
    ∀ {l : List CarYard} {covAcc : List (ℤ × ℤ × ℤ)}
      {linkAcc : List ((ℤ × ℤ) × ℤ)}
      {out : List (ℤ × ℤ × ℤ) × List ((ℤ × ℤ) × ℤ)},
    processYards days ids l covAcc linkAcc = .ok out →
    ∀ cy ∈ l,
      ¬ (hasPerWeek cy = true ∧ (days.length : ℤ) < (perWeekReq cy).1) ∧
      knownNegativeGapLink ids cy = false ∧
      knownLinkTooManyVisits ids cy = false := by
  intro l
  induction l with
  | nil =>
    intro covAcc linkAcc out _ cy hcy
    cases hcy
  | cons a rest ih =>
    intro covAcc linkAcc out h cy hcy
    unfold processYards at h
    split at h
    · simp at h
    · rename_i c b heq
      rcases List.mem_cons.mp hcy with hc | hc
      · subst hc
        exact stepYard_ok_checks heq
      · exact ih h cy hc

theorem validate_ok_more {req : ScheduleRequest} {ctx : ValidCtx}
    (h : validate req = .ok ctx) :
    req.employees ≠ [] ∧ req.car_yards ≠ [] ∧ req.days ≠ [] ∧
    (∃ u, checkMinMax req.car_yards = .ok u) ∧
    (∃ u, checkGroups (yardIdsOf req) (req.yard_groups.getD []) = .ok u) := by
  unfold validate at h
  split at h
  · split at h
    · split at h
      · simp at h
      · split at h
        · simp at h
        · split at h
          · simp at h
          · split at h
            · simp at h
            · rename_i u hmm
              split at h
              · simp at h
              · rename_i u2 hgrp
                refine ⟨?_, ?_, ?_, ⟨u, hmm⟩, ⟨u2, hgrp⟩⟩
                · intro hc
                  exact absurd
                    (show req.employees.isEmpty = true by rw [hc]; rfl)
                    (by assumption)
                · intro hc
                  exact absurd
                    (show req.car_yards.isEmpty = true by rw [hc]; rfl)
                    (by assumption)
                · intro hc
                  exact absurd
                    (show req.days.isEmpty = true by rw [hc]; rfl)
                    (by assumption)
    · simp at h
  · simp at h

theorem validation_error_propagates {req : ScheduleRequest}
    {e : ValidationError} (h : validate req = .error e)
    (status : SolverStatus) (sol : Solution) :
    solve_roster req status sol = .error (.validation e) := by
  unfold solve_roster
  rw [h]

/-- C8: every malformed input in the enumerated taxonomy is rejected with
a validation error before the solver is ever invoked; the outcome does not
depend on the solver status or candidate solution, i.e. on whether the
instance would be solvable. -/
theorem rejection_of_malformed (req : ScheduleRequest)
    (h : MalformedC8 req) :
    ∃ e, validate req = .error e ∧
      ∀ status sol, solve_roster req status sol = .error (.validation e) := by
  cases hval : validate req with
  | error e => exact ⟨e, rfl, fun status sol =>
      validation_error_propagates hval status sol⟩
  | ok ctx =>
    exfalso
    have hparts := validate_ok_parts hval
    have hmore := validate_ok_more hval
    rcases hmore.2.2.2.1 with ⟨u1, hmm⟩
    rcases hmore.2.2.2.2 with ⟨u2, hgrp⟩
    rcases h with h | h | h | h | h | h | h | h | h | h | h | h
    · exact h hparts.1
    · exact h hparts.2.1
    · exact hmore.1 h
    · exact hmore.2.1 h
    · exact hmore.2.2.1 h
    · rcases h with ⟨cy, hcy, hlt⟩
      exact checkMinMax_ok hmm cy hcy hlt
    · rcases h with ⟨g, hg, i, hi, hnot⟩
      exact hnot (checkGroups_ok hgrp g hg i hi)
    · rcases h with ⟨cy, hcy, hbad⟩
      exact (processYards_ok_checks hparts.2.2.1 cy hcy).1 hbad
    · rcases h with ⟨cy, hcy, hbad⟩
      have := (processYards_ok_checks hparts.2.2.1 cy hcy).2.1
      rw [hbad] at this
      cases this
    · rcases h with ⟨cy1, hcy1, cy2, hcy2, hbad⟩
      unfold conflictingLinkDecls at hbad
      rcases hl1 : cy1.linked_yard with _ | lg1
      · rw [hl1] at hbad
        cases hbad
      · rcases hl2 : cy2.linked_yard with _ | lg2
        · rw [hl1, hl2] at hbad
          cases hbad
        · rw [hl1, hl2] at hbad
          simp only [Bool.and_eq_true, decide_eq_true_eq] at hbad
          have hid1 : lg1.1 = cy2.id := hbad.1.1
          have hid2 : lg2.1 = cy1.id := hbad.1.2
          have hgne : lg1.2 ≠ lg2.2 := hbad.2
          have hm1 : lg1.1 ∈ yardIdsOf req := by
            rw [hid1]
            exact List.mem_map_of_mem (fun y => y.id) hcy2
          have hm2 : lg2.1 ∈ yardIdsOf req := by
            rw [hid2]
            exact List.mem_map_of_mem (fun y => y.id) hcy1
          have hr1 : (sortedPairKey cy1.id lg1.1, lg1.2) ∈ ctx.linkPairs :=
            validate_registered hval hcy1
              (by rw [hl1]) hm1
          have hr2 : (sortedPairKey cy2.id lg2.1, lg2.2) ∈ ctx.linkPairs :=
            validate_registered hval hcy2
              (by rw [hl2]) hm2
          have hkeq : sortedPairKey cy2.id lg2.1 =
              sortedPairKey cy1.id lg1.1 := by
            rw [hid1, hid2]
            exact sortedPairKey_comm cy2.id cy1.id
          rw [hkeq] at hr2
          exact hgne (nodupKeys_mem_unique
            (validate_linkPairs_nodupKeys hval) hr1 hr2)
    · rcases h with ⟨cy, hcy, hbad⟩
      have := (processYards_ok_checks hparts.2.2.1 cy hcy).2.2
      rw [hbad] at this
      cases this
    · rcases h with ⟨cy1, hcy1, cy2, hcy2, hbad⟩
      unfold linkTargetTooManyVisits at hbad
      rcases hl1 : cy1.linked_yard with _ | lg
      · rw [hl1] at hbad
        cases hbad
      · rw [hl1] at hbad
        simp only [Bool.and_eq_true, decide_eq_true_eq] at hbad
        have hid : lg.1 = cy2.id := hbad.1
        have hv2 : 1 < (perWeekReq cy2).1 := hbad.2
        have hm : lg.1 ∈ yardIdsOf req := by
          rw [hid]
          exact List.mem_map_of_mem (fun y => y.id) hcy2
        have hr : (sortedPairKey cy1.id lg.1, lg.2) ∈ ctx.linkPairs :=
          validate_registered hval hcy1 (by rw [hl1]) hm
        have hvis := checkLinkedVisits_ok hparts.2.2.2.1 _ hr
        have hlook : ctx.coverageReq.lookup cy2.id =
            some (perWeekReq cy2) := by
          rw [validate_cov hval]
          exact lookup_map_entryOf hparts.2.1 hcy2
        have htm : visitsTooMany ctx.coverageReq cy2.id = true := by
          unfold visitsTooMany
          rw [hlook]
          simpa using hv2
        rcases sortedPairKey_cases cy1.id lg.1 with hk | hk
        · have := hvis.2
          rw [hk] at this
          simp only at this
          rw [hid] at this
          rw [htm] at this
          cases this
        · have := hvis.1
          rw [hk] at this
          simp only at this
          rw [hid] at this
          rw [htm] at this
          cases this

/-- C8 witness: a request with duplicate employee ids is rejected before
the solver regardless of status and candidate solution. -/
theorem rejection_of_malformed_witness :
    MalformedC8 reqBadC8 ∧
    ∃ e, validate reqBadC8 = .error e ∧
      ∀ status sol,
        solve_roster reqBadC8 status sol = .error (.validation e) :=
  ⟨by decide, rejection_of_malformed reqBadC8 (by decide)⟩

@[simp] theorem clearLinkYard_id (t : ℤ) (y : CarYard) :
    (clearLinkYard t y).id = y.id := by
  unfold clearLinkYard
  split <;> rfl

@[simp] theorem clearLinkYard_per_week (t : ℤ) (y : CarYard) :
    (clearLinkYard t y).per_week = y.per_week := by
  unfold clearLinkYard
  split <;> rfl

@[simp] theorem clearLinkYard_required_days (t : ℤ) (y : CarYard) :
    (clearLinkYard t y).required_days = y.required_days := by
  unfold clearLinkYard
  split <;> rfl

@[simp] theorem clearLinkYard_min_employees (t : ℤ) (y : CarYard) :
    (clearLinkYard t y).min_employees = y.min_employees := by
  unfold clearLinkYard
  split <;> rfl

@[simp] theorem clearLinkYard_max_employees (t : ℤ) (y : CarYard) :
    (clearLinkYard t y).max_employees = y.max_employees := by
  unfold clearLinkYard
  split <;> rfl

@[simp] theorem clearLinkYard_hours_required (t : ℤ) (y : CarYard) :
    (clearLinkYard t y).hours_required = y.hours_required := by
  unfold clearLinkYard
  split <;> rfl

@[simp] theorem clearLinkYard_region (t : ℤ) (y : CarYard) :
    (clearLinkYard t y).region = y.region := by
  unfold clearLinkYard
  split <;> rfl

@[simp] theorem clearLinkYard_priority (t : ℤ) (y : CarYard) :
    (clearLinkYard t y).priority = y.priority := by
  unfold clearLinkYard
  split <;> rfl

@[simp] theorem clearLinkYard_startTime (t : ℤ) (y : CarYard) :
    (clearLinkYard t y).startTime = y.startTime := by
  unfold clearLinkYard
  split <;> rfl

@[simp] theorem clearLinkYard_perWeekReq (t : ℤ) (y : CarYard) :
    perWeekReq (clearLinkYard t y) = perWeekReq y := by
  unfold perWeekReq
  rw [clearLinkYard_per_week]

@[simp] theorem clearLinkYard_hasPerWeek (t : ℤ) (y : CarYard) :
    hasPerWeek (clearLinkYard t y) = hasPerWeek y := by
  unfold hasPerWeek
  rw [clearLinkYard_per_week]

@[simp] theorem clearLinkYard_requiredDaysList (t : ℤ) (y : CarYard) :
    requiredDaysList (clearLinkYard t y) = requiredDaysList y := by
  unfold requiredDaysList
  rw [clearLinkYard_required_days]

@[simp] theorem clearLinkYard_hasRequiredDays (t : ℤ) (y : CarYard) :
    hasRequiredDays (clearLinkYard t y) = hasRequiredDays y := by
  unfold hasRequiredDays
  rw [clearLinkYard_requiredDaysList]

@[simp] theorem clearLinkYard_entryOf (t : ℤ) (y : CarYard) :
    entryOf (clearLinkYard t y) = entryOf y := by
  unfold entryOf
  rw [clearLinkYard_id, clearLinkYard_perWeekReq]

@[simp] theorem clearLinkYard_totalMinutes (t : ℤ) (y : CarYard) :
    totalMinutes (clearLinkYard t y) = totalMinutes y := by
  unfold totalMinutes
  rw [clearLinkYard_hours_required]

theorem clearLink_yardIds (req : ScheduleRequest) (t : ℤ) :
    yardIdsOf (clearLink req t) = yardIdsOf req := by
  unfold yardIdsOf clearLink
  rw [List.map_map]
  simp [Function.comp_def]

theorem clearLinkYard_eq_self {t : ℤ} {y : CarYard} (h : y.id ≠ t) :
    clearLinkYard t y = y := by
  unfold clearLinkYard
  rw [if_neg h]

theorem stepYard_clear (days : List DayOfWeek) (ids : List ℤ)
    (y : CarYard) (t : ℤ)
    (hcase : y.id ≠ t ∨ ∀ l2 g2, y.linked_yard = some (l2, g2) → l2 ∉ ids) :
    ∀ (covAcc : List (ℤ × ℤ × ℤ)) (linkAcc : List ((ℤ × ℤ) × ℤ)),
    stepYard days ids (clearLinkYard t y) covAcc linkAcc =
    stepYard days ids y covAcc linkAcc := by
  intro covAcc linkAcc
  rcases hcase with hne | hsome
  · rw [clearLinkYard_eq_self hne]
  · unfold clearLinkYard
    split
    · rcases hly : y.linked_yard with _ | ⟨l2, g2⟩
      · rw [show ({ y with linked_yard := none } : CarYard) = y from by
          rw [← hly]]
      · have hm : l2 ∉ ids := hsome l2 g2 hly
        show stepYard days ids { y with linked_yard := none }
          covAcc linkAcc = stepYard days ids y covAcc linkAcc
        unfold stepYard
        simp only [
          show ({ y with linked_yard := none } : CarYard).linked_yard =
            none from rfl,
          show ({ y with linked_yard := none } : CarYard).id = y.id
            from rfl,
          show hasPerWeek { y with linked_yard := none } = hasPerWeek y
            from rfl,
          show hasRequiredDays { y with linked_yard := none } =
            hasRequiredDays y from rfl,
          show perWeekReq { y with linked_yard := none } = perWeekReq y
            from rfl,
          show requiredDaysList { y with linked_yard := none } =
            requiredDaysList y from rfl,
          show entryOf { y with linked_yard := none } = entryOf y
            from rfl,
          hly]
        rw [if_neg hm]
    · rfl

theorem processYards_clear (days : List DayOfWeek) (ids : List ℤ)
    (t : ℤ) :
    ∀ (l : List CarYard),
    (∀ y ∈ l, y.id ≠ t ∨
      ∀ l2 g2, y.linked_yard = some (l2, g2) → l2 ∉ ids) →
    ∀ (covAcc : List (ℤ × ℤ × ℤ)) (linkAcc : List ((ℤ × ℤ) × ℤ)),
    processYards days ids (l.map (clearLinkYard t)) covAcc linkAcc =
    processYards days ids l covAcc linkAcc := by
  intro l
  induction l with
  | nil =>
    intro _ covAcc linkAcc
    rfl
  | cons y rest ih =>
    intro hall covAcc linkAcc
    rw [List.map_cons]
    unfold processYards
    rw [stepYard_clear days ids y t (hall y (List.mem_cons_self y rest))
      covAcc linkAcc]
    cases stepYard days ids y covAcc linkAcc with
    | error e => rfl
    | ok out =>
      exact ih (fun z hz => hall z (List.mem_cons_of_mem y hz)) out.1 out.2

theorem checkMinMax_clear (t : ℤ) :
    ∀ (l : List CarYard),
    checkMinMax (l.map (clearLinkYard t)) = checkMinMax l := by
  intro l
  induction l with
  | nil => rfl
  | cons y rest ih =>
    rw [List.map_cons]
    unfold checkMinMax
    rw [clearLinkYard_max_employees, clearLinkYard_min_employees,
      clearLinkYard_id]
    split
    · rfl
    · exact ih

theorem checkLinkedRequiredDays_clear (links : List ((ℤ × ℤ) × ℤ))
    (t : ℤ) :
    ∀ (l : List CarYard),
    checkLinkedRequiredDays links (l.map (clearLinkYard t)) =
    checkLinkedRequiredDays links l := by
  intro l
  induction l with
  | nil => rfl
  | cons y rest ih =>
    rw [List.map_cons]
    unfold checkLinkedRequiredDays
    rw [clearLinkYard_id, clearLinkYard_requiredDaysList]
    split
    · rfl
    · exact ih

theorem validate_clear (req : ScheduleRequest) (cy : CarYard)
    (lid g : ℤ) (hcy : cy ∈ req.car_yards)
    (hl : cy.linked_yard = some (lid, g)) (hm : lid ∉ yardIdsOf req)
    (hnd : (req.car_yards.map (fun y => y.id)).Nodup) :
    validate (clearLink req cy.id) = validate req := by
  have hall : ∀ y ∈ req.car_yards, y.id ≠ cy.id ∨
      ∀ l2 g2, y.linked_yard = some (l2, g2) → l2 ∉ yardIdsOf req := by
    intro y hy
    by_cases hid : y.id = cy.id
    · right
      have hyc : y = cy := List.inj_on_of_nodup_map hnd hy hcy hid
      intro l2 g2 hly
      rw [hyc, hl] at hly
      cases hly
      exact hm
    · exact Or.inl hid
  unfold validate
  rw [show (clearLink req cy.id).employees = req.employees from rfl]
  rw [show (clearLink req cy.id).days = req.days from rfl]
  rw [show (clearLink req cy.id).yard_groups = req.yard_groups from rfl]
  rw [show (clearLink req cy.id).car_yards =
    req.car_yards.map (clearLinkYard cy.id) from rfl]
  rw [show (req.car_yards.map (clearLinkYard cy.id)).map
      (fun y => y.id) = req.car_yards.map (fun y => y.id) from by
    rw [List.map_map]
    simp [Function.comp_def]]
  rw [show (req.car_yards.map (clearLinkYard cy.id)).isEmpty =
      req.car_yards.isEmpty from by
    rcases req.car_yards with _ | ⟨a, rest⟩ <;> rfl]
  rw [checkMinMax_clear]
  rw [show yardIdsOf (clearLink req cy.id) = yardIdsOf req from
    clearLink_yardIds req cy.id]
  rw [processYards_clear req.days (yardIdsOf req) cy.id req.car_yards hall]
  cases processYards req.days (yardIdsOf req) req.car_yards [] [] with
  | error e => rfl
  | ok out =>
    rcases out with ⟨cov, links⟩
    simp only [checkLinkedRequiredDays_clear]

theorem clearLink_employeeDayMinutes (req : ScheduleRequest) (t : ℤ)
    (sol : Solution) (e : ℤ) (d : DayOfWeek) :
    employeeDayMinutes (clearLink req t) sol e d =
    employeeDayMinutes req sol e d := by
  unfold employeeDayMinutes
  rw [show (clearLink req t).car_yards =
    req.car_yards.map (clearLinkYard t) from rfl]
  rw [List.map_map]
  simp [Function.comp_def]

theorem clearLink_countAssigned (req : ScheduleRequest) (t : ℤ)
    (sol : Solution) (i : ℤ) (d : DayOfWeek) :
    countAssigned (clearLink req t) sol i d = countAssigned req sol i d :=
  rfl

theorem clearLink_sumWorkAtYard (req : ScheduleRequest) (t : ℤ)
    (sol : Solution) (i : ℤ) (d : DayOfWeek) :
    sumWorkAtYard (clearLink req t) sol i d = sumWorkAtYard req sol i d :=
  rfl

theorem clearLink_countCovered (req : ScheduleRequest) (t : ℤ)
    (sol : Solution) (i : ℤ) :
    countCovered (clearLink req t) sol i = countCovered req sol i :=
  rfl

theorem clearLink_maxMinutes (req : ScheduleRequest) (t : ℤ) :
    maxMinutes (clearLink req t) = maxMinutes req :=
  rfl

theorem feasible_clear (req : ScheduleRequest) (t : ℤ) (ctx : ValidCtx)
    (sol : Solution) :
    Feasible (clearLink req t) ctx sol ↔ Feasible req ctx sol := by
  unfold Feasible AllowedDaysOk AvailabilityOk CoverageCountOk WorkOk
    FairSplitOk DailyCapOk FrequencyOk LinksOk RegionExcluded
  rw [show (clearLink req t).employees = req.employees from rfl]
  rw [show (clearLink req t).days = req.days from rfl]
  rw [show (clearLink req t).car_yards =
    req.car_yards.map (clearLinkYard t) from rfl]
  simp only [List.forall_mem_map, clearLinkYard_id,
    clearLinkYard_hasPerWeek, clearLinkYard_hasRequiredDays,
    clearLinkYard_requiredDaysList, clearLinkYard_min_employees,
    clearLinkYard_max_employees, clearLinkYard_totalMinutes,
    clearLinkYard_region, clearLink_employeeDayMinutes,
    clearLink_countAssigned, clearLink_sumWorkAtYard,
    clearLink_countCovered, clearLink_maxMinutes]

theorem clearLink_rawAssignments (req : ScheduleRequest) (t : ℤ)
    (sol : Solution) :
    rawAssignments (clearLink req t) sol = rawAssignments req sol := by
  unfold rawAssignments
  rw [show (clearLink req t).employees = req.employees from rfl]
  rw [show (clearLink req t).days = req.days from rfl]
  rw [show (clearLink req t).car_yards =
    req.car_yards.map (clearLinkYard t) from rfl]
  simp only [List.flatMap_map, clearLinkYard_id]

theorem clearLink_dayYards (req : ScheduleRequest) (t : ℤ)
    (sol : Solution) (d : DayOfWeek) :
    dayYards (clearLink req t) sol d =
    (dayYards req sol d).map
      (fun p => (clearLinkYard t p.1, p.2)) := by
  unfold dayYards
  rw [show (clearLink req t).car_yards =
    req.car_yards.map (clearLinkYard t) from rfl]
  rw [show assignedEmployees (clearLink req t) =
    assignedEmployees req from rfl]
  rw [List.filter_map, List.map_map, List.map_map]
  simp only [Function.comp_def, clearLinkYard_id]

theorem clearLink_sortKey (ds : ℚ) (t : ℤ) (p : CarYard × List ℤ) :
    sortKey ds (clearLinkYard t p.1, p.2) = sortKey ds p := by
  unfold sortKey
  simp

theorem clearLink_insertByKey (ds : ℚ) (t : ℤ) (a : CarYard × List ℤ) :
    ∀ (l : List (CarYard × List ℤ)),
    insertByKey ds (clearLinkYard t a.1, a.2)
      (l.map (fun p => (clearLinkYard t p.1, p.2))) =
    (insertByKey ds a l).map (fun p => (clearLinkYard t p.1, p.2)) := by
  intro l
  induction l with
  | nil => rfl
  | cons b rest ih =>
    rw [List.map_cons]
    unfold insertByKey
    rw [clearLink_sortKey, clearLink_sortKey]
    split
    · rw [List.map_cons, List.map_cons]
    · rw [List.map_cons]
      rw [ih]

theorem clearLink_sortYards (ds : ℚ) (t : ℤ) :
    ∀ (l : List (CarYard × List ℤ)),
    sortYards ds (l.map (fun p => (clearLinkYard t p.1, p.2))) =
    (sortYards ds l).map (fun p => (clearLinkYard t p.1, p.2)) := by
  intro l
  induction l with
  | nil => rfl
  | cons a rest ih =>
    rw [List.map_cons]
    unfold sortYards
    rw [List.foldr_cons, List.foldr_cons]
    have hr : List.map (fun p => (clearLinkYard t p.1, p.2))
          (rest.foldr (insertByKey ds) []) =
        (rest.map (fun p => (clearLinkYard t p.1, p.2))).foldr
          (insertByKey ds) [] := by
      have := ih
      unfold sortYards at this
      rw [this]
    rw [← hr]
    exact clearLink_insertByKey ds t a _

theorem clearLink_runDay (req : ScheduleRequest) (t : ℤ) (ds : ℚ)
    (d : DayOfWeek) :
    ∀ (yards : List (CarYard × List ℤ)) (avail : ℤ → ℚ),
    runDay (clearLink req t) ds d
      (yards.map (fun p => (clearLinkYard t p.1, p.2))) avail =
    runDay req ds d yards avail := by
  intro yards
  induction yards with
  | nil =>
    intro avail
    rfl
  | cons p rest ih =>
    intro avail
    rcases p with ⟨cy, emps⟩
    rw [List.map_cons]
    simp only [runDay, clearLinkYard_id, clearLinkYard_startTime,
      clearLinkYard_hours_required,
      show (clearLink req t).travel_buffer_minutes =
        req.travel_buffer_minutes from rfl]
    split
    · exact ih avail
    · rw [ih]

theorem clearLink_yardTimeblocks (req : ScheduleRequest) (t : ℤ)
    (sol : Solution) :
    yardTimeblocks (clearLink req t) sol = yardTimeblocks req sol := by
  unfold yardTimeblocks
  rw [show (clearLink req t).days = req.days from rfl]
  rw [show defaultStartOf (clearLink req t) = defaultStartOf req from rfl]
  congr 1
  funext d
  rw [clearLink_dayYards, clearLink_sortYards, clearLink_runDay]

theorem clearLink_buildResponse (req : ScheduleRequest) (t : ℤ)
    (sol : Solution) (st : SolverStatus) :
    buildResponse (clearLink req t) sol st = buildResponse req sol st := by
  unfold buildResponse
  rw [clearLink_rawAssignments, clearLink_yardTimeblocks]

theorem clearLink_solve_roster (req : ScheduleRequest) (t : ℤ)
    (hv : validate (clearLink req t) = validate req) :
    ∀ (status : SolverStatus) (sol : Solution),
    solve_roster (clearLink req t) status sol =
      solve_roster req status sol := by
  intro status sol
  unfold solve_roster
  rw [hv]
  cases hval : validate req with
  | error e => rfl
  | ok ctx =>
    cases status with
    | infeasible => rfl
    | optimal =>
      simp only [clearLink_rawAssignments, clearLink_buildResponse]
    | feasible =>
      simp only [clearLink_rawAssignments, clearLink_buildResponse]

/-- C10: a `linked_yard` whose target id is absent from the request's yard
list is silently ignored: validation succeeds exactly as it would with the
link removed (and produces the identical context, so no link pair
mentioning the unknown id is ever registered), the hard-constraint set is
unchanged, and the end-to-end result of `solve_roster` is the same as for
the unlinked request, for every solver status and solution. -/
theorem dangling_link_ignored (req : ScheduleRequest) (cy : CarYard)
    (lid g : ℤ) (hcy : cy ∈ req.car_yards)
    (hl : cy.linked_yard = some (lid, g)) (hm : lid ∉ yardIdsOf req)
    (hnd : (req.car_yards.map (fun y => y.id)).Nodup) :
    validate (clearLink req cy.id) = validate req ∧
    (∀ ctx, validate req = .ok ctx →
      ∀ p ∈ ctx.linkPairs, p.1.1 ≠ lid ∧ p.1.2 ≠ lid) ∧
    (∀ ctx sol,
      Feasible (clearLink req cy.id) ctx sol ↔ Feasible req ctx sol) ∧
    (∀ status sol, solve_roster (clearLink req cy.id) status sol =
      solve_roster req status sol) := by
  have hv := validate_clear req cy lid g hcy hl hm hnd
  refine ⟨hv, ?_, ?_, ?_⟩
  · intro ctx hok p hp
    have hspec := validate_linkPairs_spec hok p hp
    constructor
    · intro h1
      exact hm (h1 ▸ hspec.1)
    · intro h2
      exact hm (h2 ▸ hspec.2.1)
  · intro ctx sol
    exact feasible_clear req cy.id ctx sol
  · exact clearLink_solve_roster req cy.id hv

theorem dangling_link_ignored_witness :
    yDangling ∈ reqD.car_yards ∧
    yDangling.linked_yard = some (99, -5) ∧
    (99 : ℤ) ∉ yardIdsOf reqD ∧
    validate (clearLink reqD yDangling.id) = validate reqD ∧
    validate reqD = .ok { coverageReq := [(1, 1, 0)], linkPairs := [] } ∧
    solve_roster (clearLink reqD yDangling.id) .optimal solA =
      solve_roster reqD .optimal solA :=
  ⟨by decide, rfl, by decide,
   (dangling_link_ignored reqD yDangling 99 (-5) (by decide) rfl
      (by decide) (by decide)).1,
   by decide,
   (dangling_link_ignored reqD yDangling 99 (-5) (by decide) rfl
      (by decide) (by decide)).2.2.2 .optimal solA⟩
